import Mathlib

/-!
Shallow embedding of the RAG pricing API's ingestion pipeline and pricing
comparison engine, together with theorems settling the specification claims.

Sources embedded:
* `src/app/models.py` — the data model (Provider, Model, ProviderModel
  offering rows, modality association).
* `src/app/db/repository_provider.py`, `repository_model.py`,
  `repository_provider_model.py` — the create / get-or-create / upsert
  operations on the store.
* `src/app/scheduler.py` — `run_job`: per-spec ingestion with a try/except
  wrapper that catches every error.
* `src/app/api/routes.py` — `compare_pricing`: per-offering cost
  computation, the three stable rank orderings, and the summary sections.

Numeric conventions: Python floats are embedded as exact rationals (ℚ),
Python ints as ℤ/ℕ.  Python's stable `sorted` is embedded as
`List.insertionSort` (any two stable sorts on a totally ordered key agree
extensionally).  Python's floor division `//` on possibly negative ints is
embedded as `Int.fdiv`.  Database rows live in lists in insertion order;
autoincrement primary keys are modelled by counters in the store.
Exceptions (SQLAlchemy integrity errors, HTTP 404) are modelled with
`Except`.
-/

namespace RagPricing

/-- Modality enum from `app/models.py` (text / image / audio / video). -/
inductive Modality where
  | text
  | image
  | audio
  | video
deriving DecidableEq, Repr

/-- Provider row (`app.models.Provider`): id, unique name, website,
optional credential reference. -/
structure ProviderRow where
  id : ℕ
  name : String
  website : String
  api_key_name : Option String
deriving DecidableEq, Repr

/-- Model row (`app.models.Model`): id and unique model name. -/
structure ModelRow where
  id : ℕ
  model_name : String
deriving DecidableEq, Repr

/-- Offering row (`app.models.ProviderModel`).  The modality association
list is kept inline, in insertion order, mirroring
`modalities_association`. -/
structure OfferingRow where
  id : ℕ
  provider_id : ℕ
  model_id : ℕ
  api_model_name : String
  context_window : ℤ
  max_output_tokens : Option ℤ
  input_cost_per_mtok : ℚ
  cached_input_cost_per_mtok : Option ℚ
  output_cost_per_mtok : ℚ
  tokens_per_second : Option ℚ
  supports_tools : Bool
  discount_start_time_utc : String
  discount_end_time_utc : String
  input_discount_price : ℚ
  output_discount_price : ℚ
  is_active : Bool
  modalities : List Modality
deriving DecidableEq, Repr

/-- Whole relational store: the three tables in row-insertion order plus
autoincrement counters for the surrogate primary keys. -/
structure Store where
  providers : List ProviderRow
  models : List ModelRow
  offerings : List OfferingRow
  nextProviderId : ℕ
  nextModelId : ℕ
  nextOfferingId : ℕ
deriving DecidableEq, Repr

/-- Store with no rows. -/
def Store.empty : Store :=
  { providers := [], models := [], offerings := [],
    nextProviderId := 0, nextModelId := 0, nextOfferingId := 0 }

/-- Scraper result record (`scrapers/base.py`, `ProviderModelSpec`). -/
structure ProviderModelSpec where
  provider_name : String
  provider_api_key_name : Option String
  provider_website : String
  model_name : String
  api_model_name : String
  context_window : ℤ
  max_output_tokens : Option ℤ
  input_cost_per_mtok : ℚ
  output_cost_per_mtok : ℚ
  modalities : List Modality
  supports_tools : Bool
  discount_start_time_utc : String := "00:00"
  discount_end_time_utc : String := "00:00"
  input_discount_price : ℚ := 0
  output_discount_price : ℚ := 0
  cached_input_cost_per_mtok : Option ℚ := none
  tokens_per_second : Option ℚ := none
deriving DecidableEq, Repr

/-! Repository layer: `repository_provider.py` / `repository_model.py`. -/

/-- Embedding of `get_provider_by_name`: first row with the given unique
name. -/
def getProviderByName (st : Store) (name : String) : Option ProviderRow :=
  st.providers.find? (fun p => decide (p.name = name))

/-- Embedding of `create_provider`: insert a new provider row and commit.
Returns the updated store and the created row. -/
def createProvider (st : Store) (name website : String)
    (api_key_name : Option String) : Store × ProviderRow :=
  let row : ProviderRow :=
    { id := st.nextProviderId, name := name, website := website,
      api_key_name := api_key_name }
  ({ st with providers := st.providers ++ [row],
             nextProviderId := st.nextProviderId + 1 }, row)

/-- Embedding of `get_or_create_provider`: look up by name; create only
when the name is absent. -/
def getOrCreateProvider (st : Store) (name website : String)
    (api_key_name : Option String) : Store × ProviderRow :=
  match getProviderByName st name with
  | some p => (st, p)
  | none => createProvider st name website api_key_name

/-- Embedding of `get_model_by_name`. -/
def getModelByName (st : Store) (name : String) : Option ModelRow :=
  st.models.find? (fun m => decide (m.model_name = name))

/-- Embedding of `create_model`. -/
def createModel (st : Store) (model_name : String) : Store × ModelRow :=
  let row : ModelRow := { id := st.nextModelId, model_name := model_name }
  ({ st with models := st.models ++ [row],
             nextModelId := st.nextModelId + 1 }, row)

/-- Embedding of `get_or_create_model`. -/
def getOrCreateModel (st : Store) (model_name : String) : Store × ModelRow :=
  match getModelByName st model_name with
  | some m => (st, m)
  | none => createModel st model_name

/-! Repository layer: `repository_provider_model.py`. -/

/-- Keyword arguments of `add_model_to_provider` other than the
(provider id, model id) key, bundled; defaults as in the Python
signature. -/
structure OfferFields where
  api_model_name : String
  context_window : ℤ
  max_output_tokens : Option ℤ
  input_cost_per_mtok : ℚ
  output_cost_per_mtok : ℚ
  modalities : List Modality
  tokens_per_second : Option ℚ := none
  supports_tools : Bool := false
  discount_start_time_utc : String := "00:00"
  discount_end_time_utc : String := "00:00"
  input_discount_price : ℚ := 0
  output_discount_price : ℚ := 0
  is_active : Bool := true
  cached_input_cost_per_mtok : Option ℚ := none
deriving DecidableEq, Repr

/-- Full-replace update of an offering row: every non-key field is
overwritten from the arguments, and the modality association list is
discarded and rebuilt; id / provider_id / model_id are untouched
(mirrors the `if db_offering:` branch of `add_model_to_provider`). -/
def setFields (r : OfferingRow) (f : OfferFields) : OfferingRow :=
  { r with
    api_model_name := f.api_model_name
    context_window := f.context_window
    max_output_tokens := f.max_output_tokens
    input_cost_per_mtok := f.input_cost_per_mtok
    cached_input_cost_per_mtok := f.cached_input_cost_per_mtok
    output_cost_per_mtok := f.output_cost_per_mtok
    tokens_per_second := f.tokens_per_second
    supports_tools := f.supports_tools
    discount_start_time_utc := f.discount_start_time_utc
    discount_end_time_utc := f.discount_end_time_utc
    input_discount_price := f.input_discount_price
    output_discount_price := f.output_discount_price
    is_active := f.is_active
    modalities := f.modalities }

/-- Fresh offering row built from the arguments (the `else` branch of
`add_model_to_provider`). -/
def mkOfferingRow (id provider_id model_id : ℕ) (f : OfferFields) :
    OfferingRow :=
  { id := id, provider_id := provider_id, model_id := model_id,
    api_model_name := f.api_model_name
    context_window := f.context_window
    max_output_tokens := f.max_output_tokens
    input_cost_per_mtok := f.input_cost_per_mtok
    cached_input_cost_per_mtok := f.cached_input_cost_per_mtok
    output_cost_per_mtok := f.output_cost_per_mtok
    tokens_per_second := f.tokens_per_second
    supports_tools := f.supports_tools
    discount_start_time_utc := f.discount_start_time_utc
    discount_end_time_utc := f.discount_end_time_utc
    input_discount_price := f.input_discount_price
    output_discount_price := f.output_discount_price
    is_active := f.is_active
    modalities := f.modalities }

/-- First offering row with the given (provider id, model id) pair:
embedding of `db.query(ProviderModel).filter_by(provider_id=..,
model_id=..).first()`. -/
def lookupPair (offs : List OfferingRow) (pid mid : ℕ) :
    Option OfferingRow :=
  offs.find? (fun o => decide (o.provider_id = pid ∧ o.model_id = mid))

/-- In-place full-replace of the first row matching the (provider, model)
pair; rows before and after it, and their order, are untouched. -/
def writeFirst (offs : List OfferingRow) (pid mid : ℕ) (f : OfferFields) :
    List OfferingRow :=
  match offs with
  | [] => []
  | o :: rest =>
    if o.provider_id = pid ∧ o.model_id = mid then setFields o f :: rest
    else o :: writeFirst rest pid mid f

/-- Embedding of `add_model_to_provider`.  The api-model-name column is
globally unique; the commit raises (modelled as `Except.error`, leaving
the store unchanged — the failed transaction is rolled back) whenever
another row would share the new api name.  Otherwise: full-replace update
of the existing (provider, model) row, or insertion of a fresh row. -/
def addModelToProvider (st : Store) (provider_id model_id : ℕ)
    (f : OfferFields) : Except String Store :=
  match lookupPair st.offerings provider_id model_id with
  | some r =>
    if ∃ o ∈ st.offerings, o.id ≠ r.id ∧ o.api_model_name = f.api_model_name
    then Except.error "UNIQUE constraint failed: provider_models.api_model_name"
    else Except.ok
      { st with offerings := writeFirst st.offerings provider_id model_id f }
  | none =>
    if ∃ o ∈ st.offerings, o.api_model_name = f.api_model_name
    then Except.error "UNIQUE constraint failed: provider_models.api_model_name"
    else Except.ok
      { st with
        offerings := st.offerings ++
          [mkOfferingRow st.nextOfferingId provider_id model_id f],
        nextOfferingId := st.nextOfferingId + 1 }

/-! Scheduler: `app/scheduler.py`. -/

/-- Field bundle passed by `run_job` to `add_model_to_provider` for one
spec (`is_active` is not passed and keeps its `True` default). -/
def fieldsOfSpec (s : ProviderModelSpec) : OfferFields :=
  { api_model_name := s.api_model_name
    context_window := s.context_window
    max_output_tokens := s.max_output_tokens
    input_cost_per_mtok := s.input_cost_per_mtok
    output_cost_per_mtok := s.output_cost_per_mtok
    modalities := s.modalities
    tokens_per_second := s.tokens_per_second
    supports_tools := s.supports_tools
    discount_start_time_utc := s.discount_start_time_utc
    discount_end_time_utc := s.discount_end_time_utc
    input_discount_price := s.input_discount_price
    output_discount_price := s.output_discount_price
    cached_input_cost_per_mtok := s.cached_input_cost_per_mtok }

/-- Loop body of `run_job` for one spec: resolve/create the provider and
the model (each committing separately), then upsert the offering.  When
the offering commit fails, the provider/model commits persist (they were
separate transactions) and the error is reported alongside the state at
the moment of the raise. -/
def processSpec (st : Store) (s : ProviderModelSpec) :
    Store × Option String :=
  let pr := getOrCreateProvider st s.provider_name s.provider_website
    s.provider_api_key_name
  let mr := getOrCreateModel pr.1 s.model_name
  match addModelToProvider mr.1 pr.2.id mr.2.id (fieldsOfSpec s) with
  | Except.ok st3 => (st3, none)
  | Except.error e => (mr.1, some e)

/-- Ingestion of a scraped batch, spec by spec in order.  The first
raising spec aborts the loop (the exception flies to `run_job`'s
`except`); the error carries the database state at the raise. -/
def ingestAll (st : Store) : List ProviderModelSpec →
    Except (String × Store) Store
  | [] => Except.ok st
  | s :: rest =>
    match processSpec st s with
    | (st1, none) => ingestAll st1 rest
    | (st1, some e) => Except.error (e, st1)

/-- Try-block body of `run_job`: construct/scrape the scraper (whose
outcome, a spec list or a raised error, is the `scrape` argument), then
ingest. -/
def runJobBody (st : Store)
    (scrape : Except String (List ProviderModelSpec)) :
    Except (String × Store) Store :=
  match scrape with
  | Except.error e => Except.error (e, st)
  | Except.ok specs => ingestAll st specs

/-- Embedding of `run_job`: the try/except wrapper catches any error from
scraping or ingestion, logs it, and returns normally with whatever state
the database reached. -/
def runJob (st : Store)
    (scrape : Except String (List ProviderModelSpec)) : Store :=
  match runJobBody st scrape with
  | Except.ok st1 => st1
  | Except.error (_, st1) => st1

/-- One scheduled job run on a batch that the scraper returned normally. -/
def runJobSpecs (st : Store) (specs : List ProviderModelSpec) : Store :=
  runJob st (Except.ok specs)

/-- Scheduler loop over the jobs of several units (each entry one unit's
scrape outcome): every job runs regardless of earlier failures. -/
def runScheduler (st : Store)
    (jobs : List (Except String (List ProviderModelSpec))) : Store :=
  jobs.foldl runJob st

/-- Decides whether ingesting the batch from `st` raises no error on any
spec. -/
def allOk (st : Store) : List ProviderModelSpec → Bool
  | [] => true
  | s :: rest =>
    match processSpec st s with
    | (st1, none) => allOk st1 rest
    | (_, some _) => false

/-! Comparison engine: `compare_pricing` in `app/api/routes.py`. -/

/-- Request body of the compare endpoint (`PricingCompareRequest`),
with the schema's defaults. -/
structure PricingCompareRequest where
  models : List String
  mode : String := "sync"
  input_tokens : ℤ := 1000
  output_tokens : ℤ := 1000
deriving DecidableEq, Repr

/-- Per-model comparison record (`ModelComparison` schema). -/
structure ModelComparison where
  model : String
  provider : String
  input_token_price : ℚ
  output_token_price : ℚ
  modality : String
  context_window : ℤ
  input_cost : ℚ
  output_cost : ℚ
  total_cost : ℚ
  input_cost_rank : ℕ
  output_cost_rank : ℕ
  total_cost_rank : ℕ
  cost_per_character : ℚ
  efficiency_score : ℚ
deriving DecidableEq, Repr, Inhabited

/-- String value of a modality enum member. -/
def modalityValue : Modality → String
  | Modality.text => "text"
  | Modality.image => "image"
  | Modality.audio => "audio"
  | Modality.video => "video"

/-- Epsilon added to the total cost before inversion in the efficiency
score (the literal `0.000001` in the source). -/
def effEpsilon : ℚ := 1 / 1000000

/-- Input price per token: `input_cost_per_mtok / 1_000_000`. -/
def inputPricePerToken (o : OfferingRow) : ℚ := o.input_cost_per_mtok / 1000000

/-- Output price per token: `output_cost_per_mtok / 1_000_000`. -/
def outputPricePerToken (o : OfferingRow) : ℚ := o.output_cost_per_mtok / 1000000

/-- Cost attributed to the input tokens of the usage scenario. -/
def inputCost (o : OfferingRow) (req : PricingCompareRequest) : ℚ :=
  inputPricePerToken o * req.input_tokens

/-- Cost attributed to the output tokens of the usage scenario. -/
def outputCost (o : OfferingRow) (req : PricingCompareRequest) : ℚ :=
  outputPricePerToken o * req.output_tokens

/-- Total cost of the usage scenario on one offering. -/
def totalCost (o : OfferingRow) (req : PricingCompareRequest) : ℚ :=
  inputCost o req + outputCost o req

/-- Normalized cost per character:
`total_cost / (input_tokens + output_tokens) / 4`. -/
def costPerCharacter (o : OfferingRow) (req : PricingCompareRequest) : ℚ :=
  totalCost o req / (req.input_tokens + req.output_tokens) / 4

/-- Efficiency score: `1.0 / (total_cost + 0.000001)`. -/
def efficiencyScore (o : OfferingRow) (req : PricingCompareRequest) : ℚ :=
  1 / (totalCost o req + effEpsilon)

/-- One entry of `comparison_data` before the rank fields are assigned
(they are initialised to 0 in the source and overwritten afterwards).
An offering is paired with its provider's name, the "Offering+Provider
view" the engine reads. -/
def comparisonItem (pname : String) (o : OfferingRow)
    (req : PricingCompareRequest) : ModelComparison :=
  { model := o.api_model_name
    provider := pname
    input_token_price := inputPricePerToken o
    output_token_price := outputPricePerToken o
    modality := (o.modalities.head?.map modalityValue).getD "text"
    context_window := o.context_window
    input_cost := inputCost o req
    output_cost := outputCost o req
    total_cost := totalCost o req
    input_cost_rank := 0
    output_cost_rank := 0
    total_cost_rank := 0
    cost_per_character := costPerCharacter o req
    efficiency_score := efficiencyScore o req }

/-- The `comparison_data` list, in the order the offerings were handed to
the engine. -/
def comparisonData (views : List (String × OfferingRow))
    (req : PricingCompareRequest) : List ModelComparison :=
  views.map (fun v => comparisonItem v.1 v.2 req)

/-- Comparison predicate of the stable sort keyed by a rational-valued
key, as used by Python's `sorted(comparison_data, key=...)`. -/
def leKey {α : Type} (key : α → ℚ) (a b : α) : Prop := key a ≤ key b

instance {α : Type} (key : α → ℚ) : DecidableRel (leKey key) :=
  fun a b => inferInstanceAs (Decidable (key a ≤ key b))

instance {α : Type} (key : α → ℚ) : IsTotal α (leKey key) :=
  ⟨fun a b => le_total (key a) (key b)⟩

instance {α : Type} (key : α → ℚ) : IsTrans α (leKey key) :=
  ⟨fun _ _ _ h1 h2 => le_trans h1 h2⟩

/-- Stable ascending sort by a rational key — the embedding of Python's
stable `sorted(..., key=...)`. -/
def sortByKey {α : Type} (key : α → ℚ) (l : List α) : List α :=
  l.insertionSort (leKey key)

/-- Rank of the item at input position `i`: one plus its position in the
stable sort of the position-tagged list (Python sorts the object list and
then writes `i + 1` into each object by `enumerate`; the objects are
identified by input position). -/
def rankAt (costs : List ℚ) (i : ℕ) : ℕ :=
  ((sortByKey Prod.snd costs.enum).map Prod.fst).indexOf i + 1

/-- Ranks of all input positions, in input order. -/
def ranksFor (costs : List ℚ) : List ℕ :=
  (List.range costs.length).map (rankAt costs)

/-- Input positions in sorted order (`map fst` of the sorted tagged
list); `rankAt costs i` is one plus the position of `i` in this list. -/
def sortPositions (costs : List ℚ) : List ℕ :=
  (sortByKey Prod.snd costs.enum).map Prod.fst

/-- The `comparison_data` list with the three rank fields assigned, items
kept in input order (the source mutates the shared objects, so the final
`comparison_data` holds the ranks). -/
def rankedData (data : List ModelComparison) : List ModelComparison :=
  data.enum.map (fun p =>
    { p.2 with
      input_cost_rank := rankAt (data.map ModelComparison.input_cost) p.1
      output_cost_rank := rankAt (data.map ModelComparison.output_cost) p.1
      total_cost_rank := rankAt (data.map ModelComparison.total_cost) p.1 })

/-- Python `min(l, key=f)`: first element with minimal key. -/
def pyMinBy {α : Type} (key : α → ℚ) : List α → Option α
  | [] => none
  | x :: xs =>
    some (xs.foldl (fun best y => if key y < key best then y else best) x)

/-- Python `max(l, key=f)`: first element with maximal key. -/
def pyMaxBy {α : Type} (key : α → ℚ) : List α → Option α
  | [] => none
  | x :: xs =>
    some (xs.foldl (fun best y => if key y > key best then y else best) x)

/-- Python `min(l)` on rationals. -/
def pyMinQ (l : List ℚ) : Option ℚ := pyMinBy id l

/-- Python `max(l)` on rationals. -/
def pyMaxQ (l : List ℚ) : Option ℚ := pyMaxBy (fun q => q) l

/-- Python slice `l[k:]` for an integer `k` (negative `k` counts from the
end; clamped like Python clamps). -/
def pySliceFrom {α : Type} (l : List α) (k : ℤ) : List α :=
  if k < 0 then l.drop (l.length - (-k).toNat) else l.drop k.toNat

/-- The `cheapest_25_percent` entry of `cost_distribution`:
`sorted_by_total_cost[:len(..)//4]` when at least 4 items, the whole
sorted list otherwise. -/
def cheapest25 {α : Type} (s : List α) : List α :=
  if 4 ≤ s.length then s.take (s.length / 4) else s

/-- The `most_expensive_25_percent` entry of `cost_distribution`:
`sorted_by_total_cost[-len(..)//4:]` when at least 4 items, the whole
sorted list otherwise.  Python parses `-len(..)//4` as `(-len(..)) // 4`,
floor division of the negated length. -/
def mostExpensive25 {α : Type} (s : List α) : List α :=
  if 4 ≤ s.length then pySliceFrom s (Int.fdiv (-(s.length : ℤ)) 4) else s

/-- The `sorted_by_total_cost` list. -/
def sortedByTotalCost (data : List ModelComparison) : List ModelComparison :=
  sortByKey ModelComparison.total_cost data

/-- Error value of FastAPI's `HTTPException`. -/
structure HttpError where
  status_code : ℕ
  detail : String
deriving DecidableEq, Repr

/-- Price-range entry of the summary (min / max / range). -/
structure PriceRange where
  min : ℚ
  max : ℚ
  range : ℚ
deriving DecidableEq, Repr

/-- One value of the heterogeneous `recommendations` dict. -/
inductive RecVal where
  | modelTotal (model provider : String) (total_cost : ℚ)
  | modelEff (model provider : String) (efficiency_score : ℚ)
  | modelName (model : String)
  | savings (vs_most_expensive vs_average : ℚ)
deriving DecidableEq, Repr

/-- One value of the heterogeneous `cost_analysis` dict. -/
inductive CostVal where
  | range (min max average spread : ℚ)
  | distribution (cheapest_25_percent most_expensive_25_percent :
      List ModelComparison)
deriving DecidableEq, Repr

/-- One value of the heterogeneous `provider_insights` dict. -/
inductive ProvVal where
  | distribution (counts : List (String × ℕ))
  | cheapest (name : String) (average_cost : ℚ)
  | comparison (avg_costs : List (String × ℚ))
deriving DecidableEq, Repr

/-- The `ComparisonSummary` schema; the `Dict[...]` fields are embedded
as association lists in insertion order, so the empty dict `{}` of the
zero-model branch is the empty list. -/
structure ComparisonSummary where
  total_models : ℕ
  mode : String
  scenario : List (String × ℤ)
  price_ranges : List (String × PriceRange)
  recommendations : List (String × RecVal)
  cost_analysis : List (String × CostVal)
  provider_insights : List (String × ProvVal)
deriving DecidableEq, Repr

/-- Python dict update `d[k] = d.get(k, 0) + 1` on an insertion-ordered
association list. -/
def bumpCount (m : List (String × ℕ)) (k : String) : List (String × ℕ) :=
  match m with
  | [] => [(k, 1)]
  | (k0, v) :: rest =>
    if k0 = k then (k0, v + 1) :: rest else (k0, v) :: bumpCount rest k

/-- Python `provider_avg_costs[p].append(c)` with insertion on first
sight. -/
def pushCost (m : List (String × List ℚ)) (k : String) (c : ℚ) :
    List (String × List ℚ) :=
  match m with
  | [] => [(k, [c])]
  | (k0, v) :: rest =>
    if k0 = k then (k0, v ++ [c]) :: rest else (k0, v) :: pushCost rest k c

/-- Per-provider offering counts, in first-appearance order. -/
def providerCounts (data : List ModelComparison) : List (String × ℕ) :=
  data.foldl (fun m item => bumpCount m item.provider) []

/-- Per-provider total-cost buckets, in first-appearance order. -/
def providerCostLists (data : List ModelComparison) :
    List (String × List ℚ) :=
  data.foldl (fun m item => pushCost m item.provider item.total_cost) []

/-- Arithmetic mean of a cost bucket (buckets are nonempty by
construction; the 0 default is never reached on them). -/
def listAvg (l : List ℚ) : ℚ := l.sum / l.length

/-- Per-provider average total cost (`provider_avg_costs` after the
averaging loop). -/
def providerAvgCosts (data : List ModelComparison) : List (String × ℚ) :=
  (providerCostLists data).map (fun kv => (kv.1, listAvg kv.2))

/-- Summary built in the `if comparison_data:` branch.  The `min`/`max`
aggregations are total here via `Option.getD 0`/`getD default`; the
branch only runs on nonempty data, where they equal Python's `min`/`max`. -/
def buildSummary (data : List ModelComparison)
    (req : PricingCompareRequest) : ComparisonSummary :=
  let min_input_price := (pyMinQ (data.map ModelComparison.input_token_price)).getD 0
  let max_input_price := (pyMaxQ (data.map ModelComparison.input_token_price)).getD 0
  let min_output_price := (pyMinQ (data.map ModelComparison.output_token_price)).getD 0
  let max_output_price := (pyMaxQ (data.map ModelComparison.output_token_price)).getD 0
  let min_total_cost := (pyMinQ (data.map ModelComparison.total_cost)).getD 0
  let max_total_cost := (pyMaxQ (data.map ModelComparison.total_cost)).getD 0
  let avg_total_cost := (data.map ModelComparison.total_cost).sum / data.length
  let cheapest := (pyMinBy ModelComparison.total_cost data).getD default
  let mostExpensive := (pyMaxBy ModelComparison.total_cost data).getD default
  let mostEfficient := (pyMaxBy ModelComparison.efficiency_score data).getD default
  let bestInput := (pyMinBy ModelComparison.input_cost data).getD default
  let bestOutput := (pyMinBy ModelComparison.output_cost data).getD default
  let avgCosts := providerAvgCosts data
  let cheapestProvider := (pyMinBy Prod.snd avgCosts).getD ("", 0)
  let s := sortedByTotalCost data
  { total_models := data.length
    mode := req.mode
    scenario := [("input_tokens", req.input_tokens),
                 ("output_tokens", req.output_tokens)]
    price_ranges :=
      [("input_token_price",
        { min := min_input_price, max := max_input_price,
          range := max_input_price - min_input_price }),
       ("output_token_price",
        { min := min_output_price, max := max_output_price,
          range := max_output_price - min_output_price })]
    recommendations :=
      [("cheapest_overall",
        RecVal.modelTotal cheapest.model cheapest.provider cheapest.total_cost),
       ("most_efficient",
        RecVal.modelEff mostEfficient.model mostEfficient.provider
          mostEfficient.efficiency_score),
       ("best_input_cost", RecVal.modelName bestInput.model),
       ("best_output_cost", RecVal.modelName bestOutput.model),
       ("cost_savings",
        RecVal.savings (mostExpensive.total_cost - cheapest.total_cost)
          (avg_total_cost - cheapest.total_cost))]
    cost_analysis :=
      [("total_cost_range",
        CostVal.range min_total_cost max_total_cost avg_total_cost
          (max_total_cost - min_total_cost)),
       ("cost_distribution",
        CostVal.distribution (cheapest25 s) (mostExpensive25 s))]
    provider_insights :=
      [("provider_distribution", ProvVal.distribution (providerCounts data)),
       ("cheapest_provider",
        ProvVal.cheapest cheapestProvider.1 cheapestProvider.2),
       ("provider_cost_comparison", ProvVal.comparison avgCosts)] }

/-- Summary built in the `else` branch: zero models and empty (present
but empty) aggregate sections. -/
def emptyComparisonSummary (req : PricingCompareRequest) :
    ComparisonSummary :=
  { total_models := 0
    mode := req.mode
    scenario := [("input_tokens", req.input_tokens),
                 ("output_tokens", req.output_tokens)]
    price_ranges := []
    recommendations := []
    cost_analysis := []
    provider_insights := [] }

/-- Response body (`PricingComparison` schema). -/
structure PricingComparison where
  models : List ModelComparison
  comparison_summary : ComparisonSummary
deriving DecidableEq, Repr

/-- Embedding of `find_models_by_api_names`: active offerings whose api
name is among the requested names, ordered by input+output cost (the
query's `order_by`; embedded as the stable sort of the table order). -/
def findModelsByApiNames (st : Store) (names : List String) :
    List OfferingRow :=
  sortByKey (fun o => o.input_cost_per_mtok + o.output_cost_per_mtok)
    (st.offerings.filter
      (fun o => decide (o.api_model_name ∈ names ∧ o.is_active = true)))

/-- Providers relation: name of the provider row an offering points at
(present for rows created by ingestion; "" stands for a dangling id,
which would be an `AttributeError` in the source). -/
def providerNameOf (st : Store) (o : OfferingRow) : String :=
  ((st.providers.find? (fun p => decide (p.id = o.provider_id))).map
    ProviderRow.name).getD ""

/-- Embedding of the `compare_pricing` route: resolve the requested
names; raise 404 when nothing matched; otherwise build the ranked
per-model list and the summary (the `else` summary branch is kept as in
the source, guarded by `comparison_data` being empty). -/
def comparePricing (st : Store) (req : PricingCompareRequest) :
    Except HttpError PricingComparison :=
  let pms := findModelsByApiNames st req.models
  if pms = [] then
    Except.error { status_code := 404,
                   detail := "No models found with the specified names" }
  else
    let data := comparisonData (pms.map (fun o => (providerNameOf st o, o))) req
    Except.ok
      { models := rankedData data
        comparison_summary :=
          if data = [] then emptyComparisonSummary req
          else buildSummary data req }

/-! Component views of the store and of one ingestion step, used to relate
a job run to its replay.  A `processSpec` step acts on the provider table,
the model table and the offering table through the independent step
functions below (proved later), because the offering upsert never touches
the provider/model tables and vice versa. -/

/-- Provider component (table and autoincrement counter) of a store. -/
def provView (st : Store) : List ProviderRow × ℕ :=
  (st.providers, st.nextProviderId)

/-- Model component of a store. -/
def modView (st : Store) : List ModelRow × ℕ :=
  (st.models, st.nextModelId)

/-- Offering component of a store. -/
def offView (st : Store) : List OfferingRow × ℕ :=
  (st.offerings, st.nextOfferingId)

/-- Provider row as `create_provider` builds it. -/
def newProviderRow (idv : ℕ) (name website : String)
    (key : Option String) : ProviderRow :=
  { id := idv, name := name, website := website, api_key_name := key }

/-- Model row as `create_model` builds it. -/
def newModelRow (idv : ℕ) (name : String) : ModelRow :=
  { id := idv, model_name := name }

/-- Action of `get_or_create_provider` on the provider component. -/
def pstep (pv : List ProviderRow × ℕ) (name website : String)
    (key : Option String) : List ProviderRow × ℕ :=
  match pv.1.find? (fun p => decide (p.name = name)) with
  | some _ => pv
  | none => (pv.1 ++ [newProviderRow pv.2 name website key], pv.2 + 1)

/-- Provider id that `get_or_create_provider` resolves the name to. -/
def pResolve (pv : List ProviderRow × ℕ) (name : String) : ℕ :=
  match pv.1.find? (fun p => decide (p.name = name)) with
  | some p => p.id
  | none => pv.2

/-- Action of `get_or_create_model` on the model component. -/
def mstep (mv : List ModelRow × ℕ) (name : String) : List ModelRow × ℕ :=
  match mv.1.find? (fun m => decide (m.model_name = name)) with
  | some _ => mv
  | none => (mv.1 ++ [newModelRow mv.2 name], mv.2 + 1)

/-- Model id that `get_or_create_model` resolves the name to. -/
def mResolve (mv : List ModelRow × ℕ) (name : String) : ℕ :=
  match mv.1.find? (fun m => decide (m.model_name = name)) with
  | some m => m.id
  | none => mv.2

/-- Combined provider/model component. -/
def nstep (nv : (List ProviderRow × ℕ) × (List ModelRow × ℕ))
    (s : ProviderModelSpec) :
    (List ProviderRow × ℕ) × (List ModelRow × ℕ) :=
  (pstep nv.1 s.provider_name s.provider_website s.provider_api_key_name,
   mstep nv.2 s.model_name)

/-- Combined provider/model component of a store. -/
def nameView (st : Store) : (List ProviderRow × ℕ) × (List ModelRow × ℕ) :=
  (provView st, modView st)

/-- Fold of the provider/model action over a batch. -/
def nfold (nv : (List ProviderRow × ℕ) × (List ModelRow × ℕ))
    (specs : List ProviderModelSpec) :
    (List ProviderRow × ℕ) × (List ModelRow × ℕ) :=
  specs.foldl nstep nv

/-- Resolved (provider id, model id, fields) arguments that the batch
hands to the offering upsert, computed along the provider/model
evolution. -/
def resolveArgs (nv : (List ProviderRow × ℕ) × (List ModelRow × ℕ)) :
    List ProviderModelSpec → List (ℕ × ℕ × OfferFields)
  | [] => []
  | s :: rest =>
    (pResolve nv.1 s.provider_name, mResolve nv.2 s.model_name,
      fieldsOfSpec s) :: resolveArgs (nstep nv s) rest

/-- Action of the offering upsert on the offering component; a
uniqueness-constraint collision leaves the component unchanged (the
transaction rolls back). -/
def ostep (oc : List OfferingRow × ℕ) (a : ℕ × ℕ × OfferFields) :
    List OfferingRow × ℕ :=
  match lookupPair oc.1 a.1 a.2.1 with
  | some r =>
    if ∃ o ∈ oc.1, o.id ≠ r.id ∧ o.api_model_name = a.2.2.api_model_name
    then oc
    else (writeFirst oc.1 a.1 a.2.1 a.2.2, oc.2)
  | none =>
    if ∃ o ∈ oc.1, o.api_model_name = a.2.2.api_model_name
    then oc
    else (oc.1 ++ [mkOfferingRow oc.2 a.1 a.2.1 a.2.2], oc.2 + 1)

/-- Fold of the offering action over resolved arguments. -/
def ofold (oc : List OfferingRow × ℕ) (args : List (ℕ × ℕ × OfferFields)) :
    List OfferingRow × ℕ :=
  args.foldl ostep oc

/-- Decides that one offering upsert does not hit the api-name
uniqueness constraint. -/
def oStepOk (oc : List OfferingRow × ℕ) (a : ℕ × ℕ × OfferFields) : Bool :=
  match lookupPair oc.1 a.1 a.2.1 with
  | some r =>
    !decide (∃ o ∈ oc.1, o.id ≠ r.id ∧
      o.api_model_name = a.2.2.api_model_name)
  | none => !decide (∃ o ∈ oc.1, o.api_model_name = a.2.2.api_model_name)

/-- Decides that no offering upsert in the resolved batch hits the
api-name uniqueness constraint. -/
def oAllOk (oc : List OfferingRow × ℕ) :
    List (ℕ × ℕ × OfferFields) → Bool
  | [] => true
  | a :: rest => oStepOk oc a && oAllOk (ostep oc a) rest

/-- Resolved offering-upsert argument of one spec against one store. -/
def argOf (st : Store) (s : ProviderModelSpec) : ℕ × ℕ × OfferFields :=
  (pResolve (provView st) s.provider_name,
   mResolve (modView st) s.model_name, fieldsOfSpec s)

/-- Repeated full-replace writes (success-path upserts on already-present
pairs), used to describe a replayed batch. -/
def writeAll (offs : List OfferingRow) :
    List (ℕ × ℕ × OfferFields) → List OfferingRow
  | [] => offs
  | a :: rest => writeAll (writeFirst offs a.1 a.2.1 a.2.2) rest

/-- Strict lexicographic order on (input position, key) pairs: smaller
key first, input position breaking ties — the order a stable sort
realises. -/
def lexLt (a b : ℕ × ℚ) : Prop :=
  a.2 < b.2 ∨ (a.2 = b.2 ∧ a.1 < b.1)

/-- Correctness bundle for the rank list the engine assigns to one cost
dimension: the rank-1 item carries the minimum cost, the rank-N item the
maximum; the ranks are a permutation of 1..N; ties keep input order. -/
def RanksCorrect (costs : List ℚ) : Prop :=
  (ranksFor costs).length = costs.length ∧
  (∀ i, i < costs.length → (ranksFor costs).getD i 0 = 1 →
    ∀ c ∈ costs, costs.getD i 0 ≤ c) ∧
  (∀ i, i < costs.length → (ranksFor costs).getD i 0 = costs.length →
    ∀ c ∈ costs, c ≤ costs.getD i 0) ∧
  (ranksFor costs).Perm ((List.range costs.length).map (· + 1)) ∧
  (∀ i j, i < j → j < costs.length → costs.getD i 0 = costs.getD j 0 →
    (ranksFor costs).getD i 0 < (ranksFor costs).getD j 0)

/-! Concrete instances used by witnesses and counterexamples. -/

/-- Spec builder: fixed website/costs/modality, varying names and context
window. -/
def mkSpec (pname mname api : String) (cw : ℤ) : ProviderModelSpec :=
  { provider_name := pname, provider_api_key_name := none,
    provider_website := "example.com", model_name := mname,
    api_model_name := api, context_window := cw,
    max_output_tokens := none, input_cost_per_mtok := 1,
    output_cost_per_mtok := 2, modalities := [Modality.text],
    supports_tools := false }

/-- Batch whose replay aborts early: re-running it once more is not a
no-op (the api name "A" moves from the (P, M1) offering to (P, M2), so
the replayed first spec's restore of "Z"/1000 survives). -/
def c5batch : List ProviderModelSpec :=
  [mkSpec "P" "M0" "Z" 1000, mkSpec "P" "M1" "A" 1, mkSpec "P" "M1" "B" 1,
   mkSpec "P" "M2" "A" 1, mkSpec "P" "M0" "Z" 2000]

/-- First spec of the two-spec C9 batch: commits provider P, model M0
and the offering with api name "X". -/
def c9good : ProviderModelSpec := mkSpec "P" "M0" "X" 100

/-- Conflict-free two-spec batch. -/
def c5okBatch : List ProviderModelSpec :=
  [mkSpec "P" "M0" "X" 100, mkSpec "P" "M1" "Y" 50]

/-- Second spec: fresh provider Q and model M1, but an api name colliding
with the first offering — its upsert raises after the provider/model
commits. -/
def c9bad : ProviderModelSpec := mkSpec "Q" "M1" "X" 200

/-- Offering builder with fixed capability fields and varying costs. -/
def mkOff (id pid mid : ℕ) (api : String) (inC outC : ℚ) : OfferingRow :=
  { id := id, provider_id := pid, model_id := mid, api_model_name := api,
    context_window := 1000, max_output_tokens := none,
    input_cost_per_mtok := inC, cached_input_cost_per_mtok := none,
    output_cost_per_mtok := outC, tokens_per_second := none,
    supports_tools := false, discount_start_time_utc := "00:00",
    discount_end_time_utc := "00:00", input_discount_price := 0,
    output_discount_price := 0, is_active := true,
    modalities := [Modality.text] }

/-- Offering with a negative input price: total cost -2·10⁻⁶ on the
default usage, below -ε. -/
def negOff : OfferingRow := mkOff 0 0 0 "neg" (-1 / 500) 0

/-- Offering with zero prices. -/
def zeroOff : OfferingRow := mkOff 1 0 1 "zero" 0 0

/-- Compare request naming the two offerings above. -/
def c10req : PricingCompareRequest := { models := ["neg", "zero"] }

/-- Offering+provider views handed to the engine for the C10 input. -/
def c10views : List (String × OfferingRow) := [("P", negOff), ("P", zeroOff)]

/-- Two offering views with nonnegative prices. -/
def c10posViews : List (String × OfferingRow) :=
  [("P", mkOff 0 0 0 "a" 1 2), ("P", mkOff 1 0 1 "b" 3 4)]

/-- Five offering views with distinct total costs (N = 5). -/
def c1views : List (String × OfferingRow) :=
  [("P", mkOff 0 0 0 "m1" 1 1), ("P", mkOff 1 0 1 "m2" 2 2),
   ("P", mkOff 2 0 2 "m3" 3 3), ("P", mkOff 3 0 3 "m4" 4 4),
   ("P", mkOff 4 0 4 "m5" 5 5)]

/-- Request naming the five offerings. -/
def c1req : PricingCompareRequest :=
  { models := ["m1", "m2", "m3", "m4", "m5"] }

/-- Store holding one offering with api name "X" keyed by (0, 0). -/
def c6store : Store :=
  { Store.empty with offerings := [mkOff 0 0 0 "X" 1 1],
                     nextOfferingId := 1 }

/-- Upsert fields reusing the api name "X". -/
def c6fields : OfferFields :=
  { api_model_name := "X", context_window := 500, max_output_tokens := none,
    input_cost_per_mtok := 1, output_cost_per_mtok := 1,
    modalities := [Modality.text] }

/-- Fresh upsert fields for the C6 witness. -/
def c6fresh : OfferFields :=
  { api_model_name := "Y", context_window := 700, max_output_tokens := none,
    input_cost_per_mtok := 2, output_cost_per_mtok := 3,
    modalities := [Modality.image, Modality.text] }

/-- Expected result of re-upserting the (0, 0) offering of `c6store` with
the fields `c6fresh`. -/
def c6updated : Store :=
  { c6store with offerings := writeFirst c6store.offerings 0 0 c6fresh }

/-! Theorems.  First a toolbox of frame lemmas about one ingestion step. -/

theorem getOrCreateProvider_frame (st : Store) (n w : String)
    (k : Option String) :
    (getOrCreateProvider st n w k).1.models = st.models ∧
    (getOrCreateProvider st n w k).1.nextModelId = st.nextModelId ∧
    (getOrCreateProvider st n w k).1.offerings = st.offerings ∧
    (getOrCreateProvider st n w k).1.nextOfferingId = st.nextOfferingId := by
  unfold getOrCreateProvider getProviderByName createProvider
  cases h : st.providers.find? (fun p => decide (p.name = n)) <;> simp [h]

theorem getOrCreateProvider_pview (st : Store) (n w : String)
    (k : Option String) :
    provView (getOrCreateProvider st n w k).1 = pstep (provView st) n w k := by
  unfold getOrCreateProvider getProviderByName createProvider pstep provView
  cases h : st.providers.find? (fun p => decide (p.name = n)) <;>
    simp [h, newProviderRow]

theorem getOrCreateProvider_id (st : Store) (n w : String)
    (k : Option String) :
    (getOrCreateProvider st n w k).2.id = pResolve (provView st) n := by
  unfold getOrCreateProvider getProviderByName createProvider pResolve provView
  cases h : st.providers.find? (fun p => decide (p.name = n)) <;> simp [h]

theorem getOrCreateModel_frame (st : Store) (n : String) :
    (getOrCreateModel st n).1.providers = st.providers ∧
    (getOrCreateModel st n).1.nextProviderId = st.nextProviderId ∧
    (getOrCreateModel st n).1.offerings = st.offerings ∧
    (getOrCreateModel st n).1.nextOfferingId = st.nextOfferingId := by
  unfold getOrCreateModel getModelByName createModel
  cases h : st.models.find? (fun m => decide (m.model_name = n)) <;> simp [h]

theorem getOrCreateModel_mview (st : Store) (n : String) :
    modView (getOrCreateModel st n).1 = mstep (modView st) n := by
  unfold getOrCreateModel getModelByName createModel mstep modView
  cases h : st.models.find? (fun m => decide (m.model_name = n)) <;>
    simp [h, newModelRow]

theorem getOrCreateModel_id (st : Store) (n : String) :
    (getOrCreateModel st n).2.id = mResolve (modView st) n := by
  unfold getOrCreateModel getModelByName createModel mResolve modView
  cases h : st.models.find? (fun m => decide (m.model_name = n)) <;> simp [h]

theorem addModelToProvider_ok_frame (st st1 : Store) (pid mid : ℕ)
    (f : OfferFields) (h : addModelToProvider st pid mid f = Except.ok st1) :
    st1.providers = st.providers ∧ st1.nextProviderId = st.nextProviderId ∧
    st1.models = st.models ∧ st1.nextModelId = st.nextModelId := by
  unfold addModelToProvider at h
  cases hl : lookupPair st.offerings pid mid <;> simp only [hl] at h <;>
    split at h <;>
    first
      | exact Except.noConfusion h
      | (injection h with h2
         subst h2
         exact ⟨rfl, rfl, rfl, rfl⟩)

/-- One ingestion step acts on the provider component through `pstep`. -/
theorem processSpec_pview (st : Store) (s : ProviderModelSpec) :
    provView (processSpec st s).1 =
      pstep (provView st) s.provider_name s.provider_website
        s.provider_api_key_name := by
  unfold processSpec
  have hp := getOrCreateProvider_pview st s.provider_name s.provider_website
    s.provider_api_key_name
  have hm := getOrCreateModel_frame
    (getOrCreateProvider st s.provider_name s.provider_website
      s.provider_api_key_name).1 s.model_name
  cases ha : addModelToProvider
      (getOrCreateModel
        (getOrCreateProvider st s.provider_name s.provider_website
          s.provider_api_key_name).1 s.model_name).1
      (getOrCreateProvider st s.provider_name s.provider_website
        s.provider_api_key_name).2.id
      (getOrCreateModel
        (getOrCreateProvider st s.provider_name s.provider_website
          s.provider_api_key_name).1 s.model_name).2.id
      (fieldsOfSpec s) with
  | ok st3 =>
    have hf := addModelToProvider_ok_frame _ _ _ _ _ ha
    simp only [ha]
    rw [← hp]
    unfold provView at *
    simp [hf.1, hf.2.1, hm.1, hm.2.1]
  | error e =>
    simp only [ha]
    rw [← hp]
    unfold provView at *
    simp [hm.1, hm.2.1]

/-- One ingestion step acts on the model component through `mstep`
(evaluated on the original store: the provider step does not touch the
model tables). -/
theorem processSpec_mview (st : Store) (s : ProviderModelSpec) :
    modView (processSpec st s).1 = mstep (modView st) s.model_name := by
  unfold processSpec
  have hpf := getOrCreateProvider_frame st s.provider_name
    s.provider_website s.provider_api_key_name
  have hm := getOrCreateModel_mview
    (getOrCreateProvider st s.provider_name s.provider_website
      s.provider_api_key_name).1 s.model_name
  have hmv : mstep (modView (getOrCreateProvider st s.provider_name
      s.provider_website s.provider_api_key_name).1) s.model_name =
      mstep (modView st) s.model_name := by
    unfold modView
    rw [hpf.1, hpf.2.1]
  cases ha : addModelToProvider
      (getOrCreateModel
        (getOrCreateProvider st s.provider_name s.provider_website
          s.provider_api_key_name).1 s.model_name).1
      (getOrCreateProvider st s.provider_name s.provider_website
        s.provider_api_key_name).2.id
      (getOrCreateModel
        (getOrCreateProvider st s.provider_name s.provider_website
          s.provider_api_key_name).1 s.model_name).2.id
      (fieldsOfSpec s) with
  | ok st3 =>
    have hf := addModelToProvider_ok_frame _ _ _ _ _ ha
    simp only [ha]
    rw [← hmv, ← hm]
    unfold modView
    simp [hf.2.2.1, hf.2.2.2]
  | error e =>
    simp only [ha]
    rw [← hmv, ← hm]

/-- C4: per offering and usage the engine computes input cost =
(input cost-per-mtok / 10⁶) · input_tokens, output cost =
(output cost-per-mtok / 10⁶) · output_tokens, total = input + output,
cost per character = total / (input_tokens + output_tokens) / 4, and
efficiency = 1 / (total + ε) with ε = 10⁻⁶ > 0, so a zero total cost
never divides by zero. -/
theorem compare_cost_formulas (o : OfferingRow) (req : PricingCompareRequest) :
    inputCost o req = o.input_cost_per_mtok / 1000000 * req.input_tokens ∧
    outputCost o req = o.output_cost_per_mtok / 1000000 * req.output_tokens ∧
    totalCost o req = inputCost o req + outputCost o req ∧
    costPerCharacter o req =
      totalCost o req / ((req.input_tokens : ℚ) + (req.output_tokens : ℚ)) / 4 ∧
    0 < effEpsilon ∧
    efficiencyScore o req = 1 / (totalCost o req + effEpsilon) ∧
    (totalCost o req = 0 → totalCost o req + effEpsilon ≠ 0) := by
  refine ⟨rfl, rfl, rfl, ?_, by norm_num [effEpsilon], rfl, ?_⟩
  · unfold costPerCharacter
    norm_num
  · intro h
    rw [h, zero_add]
    norm_num [effEpsilon]

theorem compare_cost_formulas_witness :
    totalCost (mkOff 0 0 0 "w" 3 5) { models := ["w"] } = 8 / 1000 ∧
    (totalCost (mkOff 0 0 0 "w" 3 5) { models := ["w"] } = 0 →
      totalCost (mkOff 0 0 0 "w" 3 5) { models := ["w"] } + effEpsilon ≠ 0) :=
  ⟨by norm_num [totalCost, inputCost, outputCost, inputPricePerToken,
      outputPricePerToken, mkOff],
   (compare_cost_formulas (mkOff 0 0 0 "w" 3 5) { models := ["w"] }).2.2.2.2.2.2⟩

/-- C7: ingesting a spec whose provider name already names a provider row
leaves the whole provider table unchanged (in particular that provider's
website and api_key_name); the spec's website and credential fields are
used only when the provider is first created. -/
theorem provider_fields_frozen_on_reingest (st : Store)
    (s : ProviderModelSpec) :
    ((∃ p ∈ st.providers, p.name = s.provider_name) →
      (processSpec st s).1.providers = st.providers) ∧
    (getProviderByName st s.provider_name = none →
      (processSpec st s).1.providers = st.providers ++
        [newProviderRow st.nextProviderId s.provider_name
          s.provider_website s.provider_api_key_name]) := by
  have hv := processSpec_pview st s
  constructor
  · intro ⟨p, hp, hname⟩
    have hsome : (st.providers.find?
        (fun q => decide (q.name = s.provider_name))).isSome = true := by
      rw [List.find?_isSome]
      exact ⟨p, hp, by simp [hname]⟩
    obtain ⟨q, hq⟩ := Option.isSome_iff_exists.mp hsome
    have : pstep (provView st) s.provider_name s.provider_website
        s.provider_api_key_name = provView st := by
      unfold pstep provView
      simp [hq]
    rw [this] at hv
    exact congrArg Prod.fst hv
  · intro hnone
    unfold getProviderByName at hnone
    have : pstep (provView st) s.provider_name s.provider_website
        s.provider_api_key_name =
        (st.providers ++ [newProviderRow st.nextProviderId s.provider_name
          s.provider_website s.provider_api_key_name],
         st.nextProviderId + 1) := by
      unfold pstep provView
      simp [hnone]
    rw [this] at hv
    exact congrArg Prod.fst hv

theorem provider_fields_frozen_on_reingest_witness :
    (∃ p ∈ (runJobSpecs Store.empty [c9good]).providers,
      p.name = c9good.provider_name) ∧
    (processSpec (runJobSpecs Store.empty [c9good]) c9good).1.providers =
      (runJobSpecs Store.empty [c9good]).providers :=
  ⟨by decide,
   (provider_fields_frozen_on_reingest (runJobSpecs Store.empty [c9good])
      c9good).1 (by decide)⟩

/-- C8: every error raised inside a job — by the scraper or by ingesting
its results — is caught inside `run_job`: the job returns normally with
the database state reached at the raise, an error-outcome scrape leaves
the store untouched, and the scheduler simply proceeds with the remaining
jobs. -/
theorem run_job_catches_errors (st : Store)
    (scrape : Except String (List ProviderModelSpec))
    (others : List (Except String (List ProviderModelSpec))) :
    (∀ e, scrape = Except.error e → runJob st scrape = st) ∧
    (∀ e st1, runJobBody st scrape = Except.error (e, st1) →
      runJob st scrape = st1) ∧
    runScheduler st (scrape :: others) =
      runScheduler (runJob st scrape) others := by
  refine ⟨?_, ?_, rfl⟩
  · intro e he
    subst he
    rfl
  · intro e st1 h
    rw [runJob, h]

theorem run_job_catches_errors_witness :
    runJob Store.empty (Except.error "scrape failed") = Store.empty ∧
    runScheduler Store.empty [Except.error "scrape failed", Except.ok [c9good]] =
      runScheduler (runJob Store.empty (Except.error "scrape failed"))
        [Except.ok [c9good]] :=
  ⟨(run_job_catches_errors Store.empty (Except.error "scrape failed")
      [Except.ok [c9good]]).1 "scrape failed" rfl,
   (run_job_catches_errors Store.empty (Except.error "scrape failed")
      [Except.ok [c9good]]).2.2⟩

/-! C6 — upsert semantics of `add_model_to_provider`. -/

theorem writeFirst_length (offs : List OfferingRow) (pid mid : ℕ)
    (f : OfferFields) : (writeFirst offs pid mid f).length = offs.length := by
  induction offs with
  | nil => rfl
  | cons o rest ih =>
    unfold writeFirst
    split <;> simp [ih]

theorem setFields_pair (r : OfferingRow) (f : OfferFields) :
    (setFields r f).provider_id = r.provider_id ∧
    (setFields r f).model_id = r.model_id ∧ (setFields r f).id = r.id :=
  ⟨rfl, rfl, rfl⟩

theorem lookupPair_some_pair (offs : List OfferingRow) (pid mid : ℕ)
    (r : OfferingRow) (h : lookupPair offs pid mid = some r) :
    r.provider_id = pid ∧ r.model_id = mid := by
  have := List.find?_some h
  simpa using this

theorem lookupPair_writeFirst (offs : List OfferingRow) (pid mid : ℕ)
    (f : OfferFields) (r : OfferingRow)
    (h : lookupPair offs pid mid = some r) :
    lookupPair (writeFirst offs pid mid f) pid mid = some (setFields r f) := by
  induction offs with
  | nil => simp [lookupPair] at h
  | cons o rest ih =>
    unfold lookupPair at h ⊢
    unfold writeFirst
    by_cases hc : o.provider_id = pid ∧ o.model_id = mid
    · rw [if_pos hc]
      rw [List.find?_cons_of_pos _ (by simpa using hc)] at h
      rw [List.find?_cons_of_pos _
        (by simp [setFields_pair, hc.1, hc.2, setFields])]
      injection h with h2
      rw [h2]
    · rw [if_neg hc]
      rw [List.find?_cons_of_neg _ (by simpa using hc)] at h
      rw [List.find?_cons_of_neg _ (by simpa using hc)]
      exact ih h

/-- C6 (amended): a successful upsert inserts a fresh row with every
field from the arguments when the (provider, model) pair is absent, and
otherwise overwrites every non-key field of the existing row in place —
the updated row is literally a fresh row built from the arguments that
keeps the old surrogate id — leaving the row count and the id counter
unchanged.  (When the api name collides with another row, the call
raises instead; see the counterexample.) -/
theorem upsert_full_replace (st st1 : Store) (pid mid : ℕ)
    (f : OfferFields)
    (h : addModelToProvider st pid mid f = Except.ok st1) :
    (lookupPair st.offerings pid mid = none →
      st1.offerings = st.offerings ++
        [mkOfferingRow st.nextOfferingId pid mid f] ∧
      st1.nextOfferingId = st.nextOfferingId + 1) ∧
    (∀ r, lookupPair st.offerings pid mid = some r →
      st1.offerings = writeFirst st.offerings pid mid f ∧
      st1.offerings.length = st.offerings.length ∧
      lookupPair st1.offerings pid mid = some (setFields r f) ∧
      setFields r f = mkOfferingRow r.id pid mid f ∧
      st1.nextOfferingId = st.nextOfferingId) := by
  unfold addModelToProvider at h
  constructor
  · intro hnone
    rw [hnone] at h
    simp only at h
    split at h
    · exact Except.noConfusion h
    · injection h with h2
      subst h2
      exact ⟨rfl, rfl⟩
  · intro r hr
    rw [hr] at h
    simp only at h
    split at h
    · exact Except.noConfusion h
    · injection h with h2
      subst h2
      obtain ⟨hp, hm⟩ := lookupPair_some_pair st.offerings pid mid r hr
      refine ⟨rfl, writeFirst_length _ _ _ _,
        lookupPair_writeFirst _ _ _ _ _ hr, ?_, rfl⟩
      unfold setFields mkOfferingRow
      simp [hp, hm]

theorem upsert_full_replace_witness :
    addModelToProvider c6store 0 0 c6fresh = Except.ok c6updated ∧
    ((lookupPair c6store.offerings 0 0 = some (mkOff 0 0 0 "X" 1 1)) ∧
      c6updated.offerings.length = c6store.offerings.length ∧
      lookupPair c6updated.offerings 0 0 =
        some (setFields (mkOff 0 0 0 "X" 1 1) c6fresh)) := by
  have h : addModelToProvider c6store 0 0 c6fresh = Except.ok c6updated := by
    rfl
  have hr : lookupPair c6store.offerings 0 0 = some (mkOff 0 0 0 "X" 1 1) := by
    rfl
  have := (upsert_full_replace c6store c6updated 0 0 c6fresh h).2
    (mkOff 0 0 0 "X" 1 1) hr
  exact ⟨h, hr, this.2.1, this.2.2.1⟩

/-- C6 counterexample: with the pair (1, 1) absent but the api name "X"
already taken by another row, the upsert inserts nothing — it raises the
uniqueness error. -/
theorem upsert_insert_can_fail :
    lookupPair c6store.offerings 1 1 = none ∧
    addModelToProvider c6store 1 1 c6fields =
      Except.error "UNIQUE constraint failed: provider_models.api_model_name" :=
  ⟨by rfl, by rfl⟩

/-! C2 — behaviour of `compare_pricing` when no offering matches. -/

/-- C2 (amended): when the requested names match zero active offerings
the compare endpoint raises HTTP 404 instead of returning a report; the
zero-model summary (total_models = 0 with empty — present but empty —
aggregate sections) exists in the code but that branch is not reached
through the endpoint. -/
theorem compare_zero_match_behavior (st : Store)
    (req : PricingCompareRequest)
    (h : findModelsByApiNames st req.models = []) :
    comparePricing st req =
      Except.error { status_code := 404,
                     detail := "No models found with the specified names" } ∧
    (emptyComparisonSummary req).total_models = 0 ∧
    (emptyComparisonSummary req).price_ranges = [] ∧
    (emptyComparisonSummary req).recommendations = [] ∧
    (emptyComparisonSummary req).cost_analysis = [] ∧
    (emptyComparisonSummary req).provider_insights = [] := by
  refine ⟨?_, rfl, rfl, rfl, rfl, rfl⟩
  unfold comparePricing
  simp [h]

theorem compare_zero_match_behavior_witness :
    findModelsByApiNames Store.empty
        (PricingCompareRequest.mk ["gpt-4"] "sync" 1000 1000).models = [] ∧
    comparePricing Store.empty
        (PricingCompareRequest.mk ["gpt-4"] "sync" 1000 1000) =
      Except.error { status_code := 404,
                     detail := "No models found with the specified names" } :=
  ⟨rfl, (compare_zero_match_behavior Store.empty
    (PricingCompareRequest.mk ["gpt-4"] "sync" 1000 1000) rfl).1⟩

/-- C2 counterexample: on an empty store every compare request raises a
404 error — the compare operation does not return a `total_models = 0`
report. -/
theorem compare_zero_match_raises :
    comparePricing Store.empty { models := ["gpt-4"] } =
      Except.error { status_code := 404,
                     detail := "No models found with the specified names" } := by
  rfl

/-! C9 — what survives a failing spec inside a batch. -/

theorem runJobSpecs_of_ok (st st1 : Store) (specs : List ProviderModelSpec)
    (h : ingestAll st specs = Except.ok st1) :
    runJobSpecs st specs = st1 := by
  simp only [runJobSpecs, runJob, runJobBody, h]

theorem runJobSpecs_of_error (st st1 : Store) (e : String)
    (specs : List ProviderModelSpec)
    (h : ingestAll st specs = Except.error (e, st1)) :
    runJobSpecs st specs = st1 := by
  simp only [runJobSpecs, runJob, runJobBody, h]

theorem ingestAll_ok_state (pre : List ProviderModelSpec) :
    ∀ st : Store, allOk st pre = true →
      ingestAll st pre = Except.ok (runJobSpecs st pre) := by
  induction pre with
  | nil => intro st _; rfl
  | cons s rest ih =>
    intro st h
    unfold allOk at h
    cases hps : processSpec st s with
    | mk st1 o =>
      rw [hps] at h
      cases o with
      | some e => exact Bool.noConfusion h
      | none =>
        have hstep : ingestAll st (s :: rest) = ingestAll st1 rest := by
          simp only [ingestAll, hps]
        have hrun : runJobSpecs st (s :: rest) = runJobSpecs st1 rest := by
          simp only [runJobSpecs, runJob, runJobBody, hstep]
        rw [hstep, hrun]
        exact ih st1 h

theorem ingestAll_append_of_allOk (pre : List ProviderModelSpec)
    (rest : List ProviderModelSpec) :
    ∀ st : Store, allOk st pre = true →
      ingestAll st (pre ++ rest) = ingestAll (runJobSpecs st pre) rest := by
  induction pre with
  | nil => intro st _; rfl
  | cons s pre1 ih =>
    intro st h
    unfold allOk at h
    cases hps : processSpec st s with
    | mk st1 o =>
      rw [hps] at h
      cases o with
      | some e => exact Bool.noConfusion h
      | none =>
        have hstep : ingestAll st ((s :: pre1) ++ rest) =
            ingestAll st1 (pre1 ++ rest) := by
          rw [List.cons_append]
          simp only [ingestAll, hps]
        have hrun : runJobSpecs st (s :: pre1) = runJobSpecs st1 pre1 := by
          have heq : ingestAll st (s :: pre1) = ingestAll st1 pre1 := by
            simp only [ingestAll, hps]
          simp only [runJobSpecs, runJob, runJobBody, heq]
        rw [hstep, hrun]
        exact ih st1 h

theorem processSpec_error_offview (st : Store) (s : ProviderModelSpec)
    (h : (processSpec st s).2.isSome = true) :
    (processSpec st s).1.offerings = st.offerings ∧
    (processSpec st s).1.nextOfferingId = st.nextOfferingId := by
  have hpf := getOrCreateProvider_frame st s.provider_name
    s.provider_website s.provider_api_key_name
  have hmf := getOrCreateModel_frame
    (getOrCreateProvider st s.provider_name s.provider_website
      s.provider_api_key_name).1 s.model_name
  cases ha : addModelToProvider
      (getOrCreateModel
        (getOrCreateProvider st s.provider_name s.provider_website
          s.provider_api_key_name).1 s.model_name).1
      (getOrCreateProvider st s.provider_name s.provider_website
        s.provider_api_key_name).2.id
      (getOrCreateModel
        (getOrCreateProvider st s.provider_name s.provider_website
          s.provider_api_key_name).1 s.model_name).2.id
      (fieldsOfSpec s) with
  | ok st3 =>
    simp only [processSpec, ha] at h
    exact Bool.noConfusion h
  | error e =>
    simp only [processSpec, ha]
    exact ⟨hmf.2.2.1.trans hpf.2.2.1, hmf.2.2.2.trans hpf.2.2.2⟩

theorem pstep_extends (pv : List ProviderRow × ℕ) (n w : String)
    (k : Option String) : ∃ dp, (pstep pv n w k).1 = pv.1 ++ dp := by
  unfold pstep
  cases h : pv.1.find? (fun p => decide (p.name = n))
  · exact ⟨[newProviderRow pv.2 n w k], rfl⟩
  · exact ⟨[], by simp⟩

theorem mstep_extends (mv : List ModelRow × ℕ) (n : String) :
    ∃ dm, (mstep mv n).1 = mv.1 ++ dm := by
  unfold mstep
  cases h : mv.1.find? (fun m => decide (m.model_name = n))
  · exact ⟨[newModelRow mv.2 n], rfl⟩
  · exact ⟨[], by simp⟩

/-- C9 (amended): when a spec of a batch fails (its offering upsert hits
the api-name uniqueness constraint), the job stops there; the store keeps
exactly the rows committed by the earlier specs of the batch — no
offering row is altered or lost — extended only by the provider and/or
model rows that the failing spec itself committed before its offering
upsert raised. -/
theorem batch_failure_preserves_committed (st : Store)
    (pre post : List ProviderModelSpec) (bad : ProviderModelSpec)
    (h1 : allOk st pre = true)
    (h2 : (processSpec (runJobSpecs st pre) bad).2.isSome = true) :
    runJobSpecs st (pre ++ bad :: post) =
      (processSpec (runJobSpecs st pre) bad).1 ∧
    (processSpec (runJobSpecs st pre) bad).1.offerings =
      (runJobSpecs st pre).offerings ∧
    (∃ dp, (processSpec (runJobSpecs st pre) bad).1.providers =
      (runJobSpecs st pre).providers ++ dp) ∧
    (∃ dm, (processSpec (runJobSpecs st pre) bad).1.models =
      (runJobSpecs st pre).models ++ dm) := by
  obtain ⟨e, he⟩ := Option.isSome_iff_exists.mp h2
  refine ⟨?_, (processSpec_error_offview _ _ h2).1, ?_, ?_⟩
  · have hI : ingestAll st (pre ++ bad :: post) =
        ingestAll (runJobSpecs st pre) (bad :: post) :=
      ingestAll_append_of_allOk pre (bad :: post) st h1
    cases hps : processSpec (runJobSpecs st pre) bad with
    | mk stB o =>
      rw [hps] at he
      simp only at he
      subst he
      have hI2 : ingestAll (runJobSpecs st pre) (bad :: post) =
          Except.error (e, stB) := by
        simp only [ingestAll, hps]
      show runJobSpecs st (pre ++ bad :: post) = stB
      exact runJobSpecs_of_error st stB e _ (hI.trans hI2)
  · have hv := processSpec_pview (runJobSpecs st pre) bad
    obtain ⟨dp, hdp⟩ := pstep_extends (provView (runJobSpecs st pre))
      bad.provider_name bad.provider_website bad.provider_api_key_name
    exact ⟨dp, by
      have := congrArg Prod.fst hv
      unfold provView at this hdp
      simpa [hdp] using this⟩
  · have hv := processSpec_mview (runJobSpecs st pre) bad
    obtain ⟨dm, hdm⟩ := mstep_extends (modView (runJobSpecs st pre))
      bad.model_name
    exact ⟨dm, by
      have := congrArg Prod.fst hv
      unfold modView at this hdm
      simpa [hdm] using this⟩

theorem batch_failure_preserves_committed_witness :
    (allOk Store.empty [c9good] = true ∧
      (processSpec (runJobSpecs Store.empty [c9good]) c9bad).2.isSome = true) ∧
    runJobSpecs Store.empty [c9good, c9bad] =
      (processSpec (runJobSpecs Store.empty [c9good]) c9bad).1 ∧
    (processSpec (runJobSpecs Store.empty [c9good]) c9bad).1.offerings =
      (runJobSpecs Store.empty [c9good]).offerings :=
  ⟨⟨by decide, by decide⟩,
   (batch_failure_preserves_committed Store.empty [c9good] [] c9bad
      (by decide) (by decide)).1,
   (batch_failure_preserves_committed Store.empty [c9good] [] c9bad
      (by decide) (by decide)).2.1⟩

/-- C9 counterexample: the batch [c9good, c9bad] has its second spec fail
on the api-name constraint, yet the final store is not the state
committed before that spec — the failing spec's provider row (and model
row) were already committed, so the provider table has 2 rows instead
of 1. -/
theorem failing_spec_commits_provider_rows :
    allOk Store.empty [c9good] = true ∧
    (processSpec (runJobSpecs Store.empty [c9good]) c9bad).2.isSome = true ∧
    runJobSpecs Store.empty [c9good, c9bad] ≠ runJobSpecs Store.empty [c9good] ∧
    (runJobSpecs Store.empty [c9good, c9bad]).providers.length = 2 ∧
    (runJobSpecs Store.empty [c9good]).providers.length = 1 := by
  exact ⟨by decide, by decide, by decide, by decide, by decide⟩

/-! C1 — the cost-distribution quartiles. -/

theorem mostExpensive25_eq_drop {α : Type} (s : List α) (h : 4 ≤ s.length) :
    mostExpensive25 s = s.drop (s.length - (s.length + 3) / 4) := by
  unfold mostExpensive25 pySliceFrom
  rw [if_pos h, Int.fdiv_eq_ediv _ (by norm_num)]
  rw [if_pos (by omega : (-(s.length : ℤ)) / 4 < 0)]
  congr 1
  omega

/-- C1 (amended): on a comparison of N offerings the cost-distribution
section holds, for N < 4, the full (sorted) set of offerings at both
ends; for N ≥ 4 the cheapest quartile is the floor(N/4) offerings of
smallest total cost, while the most expensive quartile is the
ceil(N/4) = (N+3)/4 offerings of largest total cost (the Python slice
`[-len//4:]` floor-divides the negated length), every selected cheap
offering costing at most every unselected one and symmetrically for the
expensive end. -/
theorem quartile_semantics (data : List ModelComparison) :
    (data.length < 4 →
      cheapest25 (sortedByTotalCost data) = sortedByTotalCost data ∧
      mostExpensive25 (sortedByTotalCost data) = sortedByTotalCost data ∧
      (sortedByTotalCost data).Perm data) ∧
    (4 ≤ data.length →
      (cheapest25 (sortedByTotalCost data)).length = data.length / 4 ∧
      (mostExpensive25 (sortedByTotalCost data)).length =
        (data.length + 3) / 4 ∧
      cheapest25 (sortedByTotalCost data) ++
        (sortedByTotalCost data).drop (data.length / 4) =
        sortedByTotalCost data ∧
      (sortedByTotalCost data).take
          (data.length - (data.length + 3) / 4) ++
        mostExpensive25 (sortedByTotalCost data) = sortedByTotalCost data ∧
      (∀ x ∈ cheapest25 (sortedByTotalCost data),
        ∀ y ∈ (sortedByTotalCost data).drop (data.length / 4),
          x.total_cost ≤ y.total_cost) ∧
      (∀ x ∈ (sortedByTotalCost data).take
          (data.length - (data.length + 3) / 4),
        ∀ y ∈ mostExpensive25 (sortedByTotalCost data),
          x.total_cost ≤ y.total_cost) ∧
      (sortedByTotalCost data).Perm data) := by
  have hlen : (sortedByTotalCost data).length = data.length :=
    List.length_insertionSort _ _
  have hperm : (sortedByTotalCost data).Perm data :=
    List.perm_insertionSort _ _
  have hs : List.Sorted (leKey ModelComparison.total_cost)
      (sortedByTotalCost data) :=
    List.sorted_insertionSort _ _
  have hsplit : ∀ k : ℕ, ∀ x ∈ (sortedByTotalCost data).take k,
      ∀ y ∈ (sortedByTotalCost data).drop k,
        x.total_cost ≤ y.total_cost := by
    intro k
    have := List.pairwise_append.mp
      (by rw [List.take_append_drop k (sortedByTotalCost data)]; exact hs)
    exact this.2.2
  constructor
  · intro h4
    refine ⟨?_, ?_, hperm⟩
    · unfold cheapest25
      rw [if_neg (by omega : ¬ 4 ≤ (sortedByTotalCost data).length)]
    · unfold mostExpensive25
      rw [if_neg (by omega : ¬ 4 ≤ (sortedByTotalCost data).length)]
  · intro h4
    have h4s : 4 ≤ (sortedByTotalCost data).length := by omega
    have hch : cheapest25 (sortedByTotalCost data) =
        (sortedByTotalCost data).take (data.length / 4) := by
      unfold cheapest25
      rw [if_pos h4s, hlen]
    have hex : mostExpensive25 (sortedByTotalCost data) =
        (sortedByTotalCost data).drop
          (data.length - (data.length + 3) / 4) := by
      rw [mostExpensive25_eq_drop _ h4s, hlen]
    refine ⟨?_, ?_, ?_, ?_, ?_, ?_, hperm⟩
    · rw [hch, List.length_take, hlen]
      omega
    · rw [hex, List.length_drop, hlen]
      omega
    · rw [hch, List.take_append_drop]
    · rw [hex, List.take_append_drop]
    · rw [hch]
      exact hsplit (data.length / 4)
    · rw [hex]
      exact hsplit (data.length - (data.length + 3) / 4)

theorem quartile_semantics_witness :
    4 ≤ (comparisonData c1views c1req).length ∧
    (cheapest25 (sortedByTotalCost (comparisonData c1views c1req))).length =
      (comparisonData c1views c1req).length / 4 ∧
    (mostExpensive25 (sortedByTotalCost (comparisonData c1views c1req))).length =
      ((comparisonData c1views c1req).length + 3) / 4 :=
  ⟨by simp [comparisonData, c1views],
   ((quartile_semantics (comparisonData c1views c1req)).2
      (by simp [comparisonData, c1views])).1,
   ((quartile_semantics (comparisonData c1views c1req)).2
      (by simp [comparisonData, c1views])).2.1⟩

/-- C1 counterexample: a comparison over N = 5 offerings puts 2
offerings into the most-expensive quartile, not floor(5/4) = 1. -/
theorem quartile_floor_counterexample :
    (comparisonData c1views c1req).length = 5 ∧
    (mostExpensive25 (sortedByTotalCost (comparisonData c1views c1req))).length = 2 ∧
    (comparisonData c1views c1req).length / 4 = 1 := by
  have h5 : (comparisonData c1views c1req).length = 5 := by
    simp [comparisonData, c1views]
  have hlen : (sortedByTotalCost (comparisonData c1views c1req)).length = 5 := by
    rw [sortedByTotalCost, sortByKey, List.length_insertionSort, h5]
  refine ⟨h5, ?_, by rw [h5]⟩
  rw [mostExpensive25_eq_drop _ (by rw [hlen]; norm_num), List.length_drop,
    hlen]

/-! C10 — "cheapest overall" versus "most efficient". -/

theorem foldl_min_max_eq {α : Type} (f g : α → ℚ) (l : List α)
    (h : ∀ x ∈ l, ∀ y ∈ l, (f x < f y ↔ g y < g x)) :
    ∀ (xs : List α) (b : α), b ∈ l → (∀ x ∈ xs, x ∈ l) →
      xs.foldl (fun best y => if f y < f best then y else best) b =
      xs.foldl (fun best y => if g y > g best then y else best) b := by
  intro xs
  induction xs with
  | nil => intro b _ _; rfl
  | cons y ys ih =>
    intro b hb hxs
    rw [List.foldl_cons, List.foldl_cons]
    have hy : y ∈ l := hxs y (by simp)
    have hcond : (f y < f b) ↔ (g y > g b) := by
      simpa [gt_iff_lt] using h y hy b hb
    have hsel : (if f y < f b then y else b) = (if g y > g b then y else b) := by
      by_cases hc : f y < f b
      · rw [if_pos hc, if_pos (hcond.mp hc)]
      · rw [if_neg hc, if_neg (fun hg => hc (hcond.mpr hg))]
    rw [hsel]
    refine ih _ ?_ (fun x hx => hxs x (by simp [hx]))
    by_cases hc : g y > g b
    · rw [if_pos hc]; exact hy
    · rw [if_neg hc]; exact hb

theorem pyMinBy_eq_pyMaxBy {α : Type} (f g : α → ℚ) (l : List α)
    (h : ∀ x ∈ l, ∀ y ∈ l, (f x < f y ↔ g y < g x)) :
    pyMinBy f l = pyMaxBy g l := by
  cases l with
  | nil => rfl
  | cons a xs =>
    simp only [pyMinBy, pyMaxBy]
    congr 1
    exact foldl_min_max_eq f g (a :: xs) h xs a (by simp)
      (fun x hx => by simp [hx])

theorem comparisonData_fields (views : List (String × OfferingRow))
    (req : PricingCompareRequest) :
    ∀ x ∈ comparisonData views req,
      x.efficiency_score = 1 / (x.total_cost + effEpsilon) ∧
      ∃ v ∈ views, x.total_cost = totalCost v.2 req := by
  intro x hx
  simp only [comparisonData, List.mem_map] at hx
  obtain ⟨v, hv, rfl⟩ := hx
  exact ⟨rfl, v, hv, rfl⟩

/-- C10 (amended): on a non-empty comparison whose offerings all have
nonnegative total cost (as with nonnegative prices and token counts),
the "cheapest overall" selection (first minimum by total cost) and the
"most efficient" selection (first maximum by efficiency score) are the
same offering: on totals above -ε the efficiency score 1/(total + ε) is
strictly decreasing, and both Python selections keep the earliest
extremum.  With a negative total cost below -ε the two can differ (see
the counterexample). -/
theorem cheapest_eq_most_efficient (views : List (String × OfferingRow))
    (req : PricingCompareRequest) (hne : views ≠ [])
    (hnn : ∀ v ∈ views, 0 ≤ totalCost v.2 req) :
    pyMinBy ModelComparison.total_cost (comparisonData views req) =
      pyMaxBy ModelComparison.efficiency_score (comparisonData views req) := by
  apply pyMinBy_eq_pyMaxBy
  intro x hx y hy
  obtain ⟨hex, vx, hvx, htx⟩ := comparisonData_fields views req x hx
  obtain ⟨hey, vy, hvy, hty⟩ := comparisonData_fields views req y hy
  have hx0 : 0 ≤ x.total_cost := htx ▸ hnn vx hvx
  have hy0 : 0 ≤ y.total_cost := hty ▸ hnn vy hvy
  have heps : (0 : ℚ) < effEpsilon := by norm_num [effEpsilon]
  have hεx : 0 < x.total_cost + effEpsilon := by linarith
  have hεy : 0 < y.total_cost + effEpsilon := by linarith
  rw [hex, hey, one_div_lt_one_div hεy hεx]
  constructor
  · intro h1; linarith
  · intro h1; linarith

theorem cheapest_eq_most_efficient_witness :
    (c10posViews ≠ [] ∧ ∀ v ∈ c10posViews, 0 ≤ totalCost v.2 c10req) ∧
    pyMinBy ModelComparison.total_cost (comparisonData c10posViews c10req) =
      pyMaxBy ModelComparison.efficiency_score
        (comparisonData c10posViews c10req) :=
  ⟨⟨by simp [c10posViews],
     by
      norm_num [c10posViews, totalCost, inputCost, outputCost,
        inputPricePerToken, outputPricePerToken, mkOff, c10req]⟩,
   cheapest_eq_most_efficient c10posViews c10req (by simp [c10posViews])
     (by
      norm_num [c10posViews, totalCost, inputCost, outputCost,
        inputPricePerToken, outputPricePerToken, mkOff, c10req])⟩

/-- C10 counterexample: with an offering of negative total cost below -ε
(input price -1/500 per mtok) next to a zero-cost offering, the cheapest
overall is the negative-cost offering but the most efficient is the
zero-cost one. -/
theorem cheapest_vs_efficient_differ :
    pyMinBy ModelComparison.total_cost (comparisonData c10views c10req) ≠
      pyMaxBy ModelComparison.efficiency_score
        (comparisonData c10views c10req) := by
  have hc1 : ¬ ((comparisonItem "P" zeroOff c10req).total_cost <
      (comparisonItem "P" negOff c10req).total_cost) := by
    norm_num [comparisonItem, totalCost, inputCost, outputCost,
      inputPricePerToken, outputPricePerToken, negOff, zeroOff, mkOff, c10req]
  have hc2 : (comparisonItem "P" zeroOff c10req).efficiency_score >
      (comparisonItem "P" negOff c10req).efficiency_score := by
    norm_num [comparisonItem, efficiencyScore, effEpsilon, totalCost,
      inputCost, outputCost, inputPricePerToken, outputPricePerToken,
      negOff, zeroOff, mkOff, c10req]
  have hmin : pyMinBy ModelComparison.total_cost
      (comparisonData c10views c10req) =
      some (comparisonItem "P" negOff c10req) := by
    simp only [comparisonData, c10views, List.map_cons, List.map_nil,
      pyMinBy, List.foldl_cons, List.foldl_nil, if_neg hc1]
  have hmax : pyMaxBy ModelComparison.efficiency_score
      (comparisonData c10views c10req) =
      some (comparisonItem "P" zeroOff c10req) := by
    simp only [comparisonData, c10views, List.map_cons, List.map_nil,
      pyMaxBy, List.foldl_cons, List.foldl_nil, if_pos hc2]
  rw [hmin, hmax]
  intro hcontra
  have := congrArg (Option.map ModelComparison.model) hcontra
  simp [comparisonItem, negOff, zeroOff, mkOff] at this

/-! C3 — correctness of the three stable rank orderings. -/

theorem orderedInsert_lex (x : ℕ × ℚ) (ys : List (ℕ × ℚ))
    (hlex : List.Pairwise lexLt ys)
    (hsorted : List.Sorted (leKey Prod.snd) ys)
    (hidx : ∀ y ∈ ys, x.1 < y.1) :
    List.Pairwise lexLt (List.orderedInsert (leKey Prod.snd) x ys) := by
  induction ys with
  | nil => simp [List.orderedInsert]
  | cons y ys ih =>
    rw [List.orderedInsert]
    by_cases hc : leKey Prod.snd x y
    · rw [if_pos hc]
      refine List.Pairwise.cons ?_ hlex
      intro z hz
      rcases List.mem_cons.mp hz with rfl | hz2
      · rcases lt_or_eq_of_le hc with hlt | heq
        · exact Or.inl hlt
        · exact Or.inr ⟨heq, hidx z (by simp)⟩
      · have hyz : y.2 ≤ z.2 := List.rel_of_sorted_cons hsorted z hz2
        have hxz : x.2 ≤ z.2 := le_trans hc hyz
        rcases lt_or_eq_of_le hxz with hlt | heq
        · exact Or.inl hlt
        · exact Or.inr ⟨heq, hidx z (by simp [hz2])⟩
    · rw [if_neg hc]
      have hyx : y.2 < x.2 := lt_of_not_le hc
      refine List.Pairwise.cons ?_
        (ih (List.pairwise_cons.mp hlex).2 hsorted.of_cons
          (fun z hz => hidx z (by simp [hz])))
      intro z hz
      rcases (List.mem_orderedInsert _).mp hz with rfl | hz2
      · exact Or.inl hyx
      · exact (List.pairwise_cons.mp hlex).1 z hz2

theorem insertionSort_lex (l : List (ℕ × ℚ))
    (hidx : List.Pairwise (fun a b : ℕ × ℚ => a.1 < b.1) l) :
    List.Pairwise lexLt (List.insertionSort (leKey Prod.snd) l) := by
  induction l with
  | nil => simp [List.insertionSort]
  | cons a l ih =>
    rw [List.insertionSort]
    obtain ⟨ha, hl⟩ := List.pairwise_cons.mp hidx
    exact orderedInsert_lex a _ (ih hl)
      (List.sorted_insertionSort _ _)
      (fun y hy => ha y ((List.mem_insertionSort _).mp hy))

theorem enum_pairwise_idx (costs : List ℚ) :
    List.Pairwise (fun a b : ℕ × ℚ => a.1 < b.1) costs.enum := by
  have h := List.pairwise_lt_range costs.length
  rw [← List.enum_map_fst costs] at h
  exact List.pairwise_map.mp h

theorem mem_sort_pairs (costs : List ℚ) (x : ℕ × ℚ)
    (hx : x ∈ sortByKey Prod.snd costs.enum) :
    x.1 < costs.length ∧ costs.getD x.1 0 = x.2 := by
  have hx2 : x ∈ costs.enum := (List.mem_insertionSort _).mp hx
  have h2 := List.mem_enum_iff_getElem?.mp hx2
  have hlt : x.1 < costs.length := by
    by_contra hge
    rw [List.getElem?_eq_none (by omega)] at h2
    exact Option.noConfusion h2
  refine ⟨hlt, ?_⟩
  rw [List.getD_eq_getElem _ _ hlt]
  rw [List.getElem?_eq_getElem hlt] at h2
  exact Option.some.inj h2

theorem pair_mem_sort (costs : List ℚ) (i : ℕ) (hi : i < costs.length) :
    (i, costs[i]) ∈ sortByKey Prod.snd costs.enum := by
  rw [sortByKey, List.mem_insertionSort]
  exact List.mem_enum_iff_getElem?.mpr (by simp)

theorem sortPositions_perm (costs : List ℚ) :
    (sortPositions costs).Perm (List.range costs.length) := by
  have h1 : (sortByKey Prod.snd costs.enum).Perm costs.enum :=
    List.perm_insertionSort _ _
  have h2 := h1.map Prod.fst
  rwa [List.enum_map_fst] at h2

theorem sortPositions_length (costs : List ℚ) :
    (sortPositions costs).length = costs.length :=
  (sortPositions_perm costs).length_eq.trans (List.length_range _)

theorem sortPositions_nodup (costs : List ℚ) :
    (sortPositions costs).Nodup :=
  (sortPositions_perm costs).nodup_iff.mpr (List.nodup_range _)

theorem mem_sortPositions (costs : List ℚ) (i : ℕ) :
    i ∈ sortPositions costs ↔ i < costs.length := by
  rw [(sortPositions_perm costs).mem_iff, List.mem_range]

/-- Core correctness of the stable-sort-and-enumerate rank assignment. -/
theorem ranksCorrect (costs : List ℚ) : RanksCorrect costs := by
  have hsl : (sortByKey Prod.snd costs.enum).length = costs.length := by
    rw [sortByKey, List.length_insertionSort, List.enum_length]
  have hfsl := sortPositions_length costs
  have hfsnodup := sortPositions_nodup costs
  have hsorted : List.Sorted (leKey Prod.snd) (sortByKey Prod.snd costs.enum) :=
    List.sorted_insertionSort _ _
  have hlex : List.Pairwise lexLt (sortByKey Prod.snd costs.enum) :=
    insertionSort_lex _ (enum_pairwise_idx costs)
  have hrk : ∀ i, i < costs.length →
      (ranksFor costs).getD i 0 = (sortPositions costs).indexOf i + 1 := by
    intro i hi
    rw [ranksFor, List.getD_eq_getElem _ _ (by simpa using hi),
      List.getElem_map, List.getElem_range]
    rfl
  have hidxlt : ∀ i, i < costs.length →
      (sortPositions costs).indexOf i < (sortPositions costs).length := by
    intro i hi
    exact List.indexOf_lt_length.mpr ((mem_sortPositions costs i).mpr hi)
  -- the tagged pair sitting at position k of the sorted list
  have hpos_fst : ∀ k (hk : k < (sortByKey Prod.snd costs.enum).length)
      (hk2 : k < (sortPositions costs).length),
      (sortByKey Prod.snd costs.enum)[k].1 = (sortPositions costs)[k] := by
    intro k hk hk2
    simp [sortPositions]
  have hpos_val : ∀ k (hk : k < (sortByKey Prod.snd costs.enum).length),
      costs.getD ((sortByKey Prod.snd costs.enum)[k].1) 0 =
        (sortByKey Prod.snd costs.enum)[k].2 :=
    fun k hk => (mem_sort_pairs costs _ (List.getElem_mem hk)).2
  have hget_idx : ∀ i (hi : i < costs.length),
      (sortPositions costs).get
        ⟨(sortPositions costs).indexOf i, hidxlt i hi⟩ = i := by
    intro i hi
    exact List.indexOf_get (hidxlt i hi)
  refine ⟨by simp [ranksFor], ?_, ?_, ?_, ?_⟩
  · -- rank 1 carries the minimum
    intro i hi hr1 c hc
    have hidx0 : (sortPositions costs).indexOf i = 0 := by
      have := hrk i hi
      omega
    have h0n : 0 < (sortByKey Prod.snd costs.enum).length := by omega
    have hfst : (sortByKey Prod.snd costs.enum)[0].1 = i := by
      rw [hpos_fst 0 h0n (by omega)]
      simpa only [hidx0, List.get_eq_getElem] using hget_idx i hi
    have hval : costs.getD i 0 = (sortByKey Prod.snd costs.enum)[0].2 := by
      rw [← hfst]
      exact hpos_val 0 h0n
    obtain ⟨j, hj, hjc⟩ := List.getElem_of_mem hc
    have hmem : (j, c) ∈ sortByKey Prod.snd costs.enum := by
      have := pair_mem_sort costs j hj
      rwa [hjc] at this
    obtain ⟨k, hk, hkeq⟩ := List.getElem_of_mem hmem
    rcases Nat.eq_zero_or_pos k with rfl | hkpos
    · rw [hval, hkeq]
    · have := List.pairwise_iff_getElem.mp hsorted 0 k h0n hk hkpos
      rw [hkeq] at this
      rw [hval]
      exact this
  · -- rank N carries the maximum
    intro i hi hrN c hc
    have hidxN : (sortPositions costs).indexOf i = costs.length - 1 := by
      have := hrk i hi
      omega
    have hNn : costs.length - 1 < (sortByKey Prod.snd costs.enum).length := by
      omega
    have hfst : (sortByKey Prod.snd costs.enum)[costs.length - 1].1 = i := by
      rw [hpos_fst _ hNn (by omega)]
      have h2 := hget_idx i hi
      simp only [hidxN, List.get_eq_getElem] at h2
      exact h2
    have hval : costs.getD i 0 =
        (sortByKey Prod.snd costs.enum)[costs.length - 1].2 := by
      rw [← hfst]
      exact hpos_val _ hNn
    obtain ⟨j, hj, hjc⟩ := List.getElem_of_mem hc
    have hmem : (j, c) ∈ sortByKey Prod.snd costs.enum := by
      have := pair_mem_sort costs j hj
      rwa [hjc] at this
    obtain ⟨k, hk, hkeq⟩ := List.getElem_of_mem hmem
    rcases Nat.lt_or_ge k (costs.length - 1) with hklt | hkge
    · have := List.pairwise_iff_getElem.mp hsorted k (costs.length - 1)
        hk hNn hklt
      rw [hkeq] at this
      rw [hval]
      exact this
    · have hkeq2 : k = costs.length - 1 := by omega
      subst hkeq2
      rw [hval, hkeq]
  · -- the ranks are a permutation of 1..N
    have step2 : (sortPositions costs).map
        (fun x => (sortPositions costs).indexOf x) =
        List.range costs.length := by
      apply List.ext_get
      · simp [hfsl]
      · intro k h1 h2
        simp only [List.get_eq_getElem, List.getElem_map, List.getElem_range]
        have hkl : k < (sortPositions costs).length := by
          simpa using h1
        have := List.get_indexOf hfsnodup ⟨k, hkl⟩
        simpa [List.get_eq_getElem] using this
    have hPermIdx : ((List.range costs.length).map
        (fun i => (sortPositions costs).indexOf i)).Perm
        (List.range costs.length) := by
      have h1 := ((sortPositions_perm costs).symm).map
        (fun i => (sortPositions costs).indexOf i)
      rw [step2] at h1
      exact h1
    have hshape : ranksFor costs = ((List.range costs.length).map
        (fun i => (sortPositions costs).indexOf i)).map (fun m => m + 1) := by
      rw [List.map_map]
      rfl
    rw [hshape]
    exact hPermIdx.map _
  · -- stable tie-breaking
    intro i j hij hj hceq
    have hi : i < costs.length := lt_trans hij hj
    rw [hrk i hi, hrk j hj]
    have hpi := hidxlt i hi
    have hpj := hidxlt j hj
    have hgi := hget_idx i hi
    have hgj := hget_idx j hj
    simp only [List.get_eq_getElem] at hgi hgj
    have hne2 : (sortPositions costs).indexOf i ≠
        (sortPositions costs).indexOf j := by
      intro he
      simp only [he] at hgi
      have : i = j := hgi.symm.trans hgj
      omega
    rcases Nat.lt_or_ge ((sortPositions costs).indexOf i)
      ((sortPositions costs).indexOf j) with hlt | hge
    · omega
    · exfalso
      have hjlt : (sortPositions costs).indexOf j <
          (sortPositions costs).indexOf i := by omega
      have hlex2 := List.pairwise_iff_getElem.mp hlex
        ((sortPositions costs).indexOf j) ((sortPositions costs).indexOf i)
        (by omega) (by omega) hjlt
      have hfj : (sortByKey Prod.snd costs.enum)[
          (sortPositions costs).indexOf j].1 = j := by
        rw [hpos_fst _ (by omega) (by omega)]
        exact hgj
      have hfi : (sortByKey Prod.snd costs.enum)[
          (sortPositions costs).indexOf i].1 = i := by
        rw [hpos_fst _ (by omega) (by omega)]
        exact hgi
      have hvj : costs.getD j 0 = (sortByKey Prod.snd costs.enum)[
          (sortPositions costs).indexOf j].2 := by
        have h3 := hpos_val _ (by omega :
          (sortPositions costs).indexOf j <
            (sortByKey Prod.snd costs.enum).length)
        rw [hfj] at h3
        exact h3
      have hvi : costs.getD i 0 = (sortByKey Prod.snd costs.enum)[
          (sortPositions costs).indexOf i].2 := by
        have h3 := hpos_val _ (by omega :
          (sortPositions costs).indexOf i <
            (sortByKey Prod.snd costs.enum).length)
        rw [hfi] at h3
        exact h3
      unfold lexLt at hlex2
      rcases hlex2 with hlt2 | ⟨heq2, hidx2⟩
      · rw [← hvj, ← hvi, hceq] at hlt2
        exact lt_irrefl _ hlt2
      · rw [hfj, hfi] at hidx2
        omega

theorem rankedData_rank_fields (data : List ModelComparison) :
    (rankedData data).map ModelComparison.input_cost_rank =
      ranksFor (data.map ModelComparison.input_cost) ∧
    (rankedData data).map ModelComparison.output_cost_rank =
      ranksFor (data.map ModelComparison.output_cost) ∧
    (rankedData data).map ModelComparison.total_cost_rank =
      ranksFor (data.map ModelComparison.total_cost) := by
  refine ⟨?_, ?_, ?_⟩ <;>
    · rw [rankedData, List.map_map, ranksFor, List.length_map,
        ← List.enum_map_fst data, List.map_map]
      rfl

/-- C3: on every non-empty comparison the engine's rank assignment is
correct in each of the three cost dimensions: the rank-1 offering has
the minimum cost and the rank-N offering the maximum, the assigned ranks
form a permutation of 1..N, equal costs are ranked in stable input
order, and the rank fields stored in the per-model output are exactly
these ranks. -/
theorem compare_ranks_correct (views : List (String × OfferingRow))
    (req : PricingCompareRequest) (hne : views ≠ []) :
    RanksCorrect ((comparisonData views req).map ModelComparison.input_cost) ∧
    RanksCorrect ((comparisonData views req).map ModelComparison.output_cost) ∧
    RanksCorrect ((comparisonData views req).map ModelComparison.total_cost) ∧
    (rankedData (comparisonData views req)).map
        ModelComparison.input_cost_rank =
      ranksFor ((comparisonData views req).map ModelComparison.input_cost) ∧
    (rankedData (comparisonData views req)).map
        ModelComparison.output_cost_rank =
      ranksFor ((comparisonData views req).map ModelComparison.output_cost) ∧
    (rankedData (comparisonData views req)).map
        ModelComparison.total_cost_rank =
      ranksFor ((comparisonData views req).map ModelComparison.total_cost) :=
  ⟨ranksCorrect _, ranksCorrect _, ranksCorrect _,
   (rankedData_rank_fields _).1, (rankedData_rank_fields _).2.1,
   (rankedData_rank_fields _).2.2⟩

theorem compare_ranks_correct_witness :
    c1views ≠ [] ∧
    RanksCorrect ((comparisonData c1views c1req).map
      ModelComparison.total_cost) :=
  ⟨by simp [c1views],
   (compare_ranks_correct c1views c1req (by simp [c1views])).2.2.1⟩

/-! C5 — idempotence of re-ingesting the same batch.  The proof relates
a job run to three component folds: the provider table, the model table
(each a create-if-absent fold over names) and the offering table (an
upsert fold over resolved (provider id, model id, fields) arguments). -/

theorem addModelToProvider_ostep (st2 : Store) (pid mid : ℕ)
    (f : OfferFields) :
    offView (match addModelToProvider st2 pid mid f with
      | Except.ok st3 => st3
      | Except.error _ => st2) = ostep (offView st2) (pid, mid, f) ∧
    ((∃ st3, addModelToProvider st2 pid mid f = Except.ok st3) ↔
      oStepOk (offView st2) (pid, mid, f) = true) := by
  unfold addModelToProvider ostep oStepOk
  simp only [offView]
  cases h : lookupPair st2.offerings pid mid with
  | none =>
    simp only [h]
    by_cases hcoll : ∃ o ∈ st2.offerings, o.api_model_name = f.api_model_name
    · rw [if_pos hcoll, if_pos hcoll]
      simp [hcoll]
    · rw [if_neg hcoll, if_neg hcoll]
      simp [hcoll]
  | some r =>
    simp only [h]
    by_cases hcoll : ∃ o ∈ st2.offerings, o.id ≠ r.id ∧
        o.api_model_name = f.api_model_name
    · rw [if_pos hcoll, if_pos hcoll]
      simp [hcoll]
    · rw [if_neg hcoll, if_neg hcoll]
      simp [hcoll]

theorem processSpec_step (st : Store) (s : ProviderModelSpec) :
    nameView (processSpec st s).1 = nstep (nameView st) s ∧
    offView (processSpec st s).1 = ostep (offView st) (argOf st s) ∧
    ((processSpec st s).2 = none ↔
      oStepOk (offView st) (argOf st s) = true) := by
  have hpv := processSpec_pview st s
  have hmv := processSpec_mview st s
  have hpf := getOrCreateProvider_frame st s.provider_name
    s.provider_website s.provider_api_key_name
  have hmf := getOrCreateModel_frame
    (getOrCreateProvider st s.provider_name s.provider_website
      s.provider_api_key_name).1 s.model_name
  have hpid := getOrCreateProvider_id st s.provider_name
    s.provider_website s.provider_api_key_name
  have hmid : (getOrCreateModel
      (getOrCreateProvider st s.provider_name s.provider_website
        s.provider_api_key_name).1 s.model_name).2.id =
      mResolve (modView st) s.model_name := by
    rw [getOrCreateModel_id]
    unfold modView
    rw [hpf.1, hpf.2.1]
  have hoff : offView (getOrCreateModel
      (getOrCreateProvider st s.provider_name s.provider_website
        s.provider_api_key_name).1 s.model_name).1 = offView st := by
    unfold offView
    rw [hmf.2.2.1, hmf.2.2.2, hpf.2.2.1, hpf.2.2.2]
  have hcore := addModelToProvider_ostep
    (getOrCreateModel
      (getOrCreateProvider st s.provider_name s.provider_website
        s.provider_api_key_name).1 s.model_name).1
    (getOrCreateProvider st s.provider_name s.provider_website
      s.provider_api_key_name).2.id
    (getOrCreateModel
      (getOrCreateProvider st s.provider_name s.provider_website
        s.provider_api_key_name).1 s.model_name).2.id
    (fieldsOfSpec s)
  have harg : ((getOrCreateProvider st s.provider_name s.provider_website
        s.provider_api_key_name).2.id,
      (getOrCreateModel
        (getOrCreateProvider st s.provider_name s.provider_website
          s.provider_api_key_name).1 s.model_name).2.id,
      fieldsOfSpec s) = argOf st s := by
    unfold argOf
    rw [hpid, hmid]
  rw [harg, hoff] at hcore
  refine ⟨?_, ?_, ?_⟩
  · unfold nameView
    rw [hpv, hmv]
    rfl
  · cases ha : addModelToProvider
        (getOrCreateModel
          (getOrCreateProvider st s.provider_name s.provider_website
            s.provider_api_key_name).1 s.model_name).1
        (getOrCreateProvider st s.provider_name s.provider_website
          s.provider_api_key_name).2.id
        (getOrCreateModel
          (getOrCreateProvider st s.provider_name s.provider_website
            s.provider_api_key_name).1 s.model_name).2.id
        (fieldsOfSpec s) with
    | ok st3 =>
      rw [ha] at hcore
      simp only [processSpec, ha]
      exact hcore.1
    | error e =>
      rw [ha] at hcore
      simp only [processSpec, ha]
      exact hcore.1
  · cases ha : addModelToProvider
        (getOrCreateModel
          (getOrCreateProvider st s.provider_name s.provider_website
            s.provider_api_key_name).1 s.model_name).1
        (getOrCreateProvider st s.provider_name s.provider_website
          s.provider_api_key_name).2.id
        (getOrCreateModel
          (getOrCreateProvider st s.provider_name s.provider_website
            s.provider_api_key_name).1 s.model_name).2.id
        (fieldsOfSpec s) with
    | ok st3 =>
      rw [ha] at hcore
      simp only [processSpec, ha]
      simpa using hcore.2.mp ⟨st3, rfl⟩
    | error e =>
      rw [ha] at hcore
      simp only [processSpec, ha]
      constructor
      · intro hcontra
        exact Option.noConfusion hcontra
      · intro hok
        obtain ⟨st3, h3⟩ := hcore.2.mpr hok
        exact Except.noConfusion h3

theorem runJobSpecs_cons_ok (st st1 : Store) (s : ProviderModelSpec)
    (rest : List ProviderModelSpec)
    (hps : processSpec st s = (st1, none)) :
    runJobSpecs st (s :: rest) = runJobSpecs st1 rest := by
  have heq : ingestAll st (s :: rest) = ingestAll st1 rest := by
    simp only [ingestAll, hps]
  simp only [runJobSpecs, runJob, runJobBody, heq]

/-- Success of the whole batch is exactly success of the offering-level
fold on the resolved arguments. -/
theorem allOk_eq_oAllOk (specs : List ProviderModelSpec) :
    ∀ st : Store, allOk st specs =
      oAllOk (offView st) (resolveArgs (nameView st) specs) := by
  induction specs with
  | nil => intro st; rfl
  | cons s rest ih =>
    intro st
    obtain ⟨hname, hoff, hok⟩ := processSpec_step st s
    have hargs : resolveArgs (nameView st) (s :: rest) =
        argOf st s :: resolveArgs (nstep (nameView st) s) rest := rfl
    rw [hargs]
    cases hps : processSpec st s with
    | mk st1 o =>
      rw [hps] at hname hoff hok
      cases o with
      | some e =>
        have hbad : oStepOk (offView st) (argOf st s) = false := by
          cases hb : oStepOk (offView st) (argOf st s)
          · rfl
          · exact absurd (hok.mpr hb) (by simp)
        have hl : allOk st (s :: rest) = false := by
          simp only [allOk, hps]
        rw [hl, oAllOk, hbad]
        rfl
      | none =>
        have hgood : oStepOk (offView st) (argOf st s) = true := hok.mp rfl
        have hl : allOk st (s :: rest) = allOk st1 rest := by
          simp only [allOk, hps]
        rw [hl, oAllOk, hgood, Bool.true_and, ih st1, hoff, hname]

/-- A successful run acts on the name components through `nfold` and on
the offering component through `ofold` over the resolved arguments. -/
theorem foldl_views (specs : List ProviderModelSpec) :
    ∀ st : Store, allOk st specs = true →
      nameView (runJobSpecs st specs) = nfold (nameView st) specs ∧
      offView (runJobSpecs st specs) =
        ofold (offView st) (resolveArgs (nameView st) specs) := by
  induction specs with
  | nil => intro st _; exact ⟨rfl, rfl⟩
  | cons s rest ih =>
    intro st h
    obtain ⟨hname, hoff, _⟩ := processSpec_step st s
    unfold allOk at h
    cases hps : processSpec st s with
    | mk st1 o =>
      rw [hps] at h hname hoff
      cases o with
      | some e => exact Bool.noConfusion h
      | none =>
        rw [runJobSpecs_cons_ok st st1 s rest hps]
        obtain ⟨ih1, ih2⟩ := ih st1 h
        constructor
        · rw [ih1, hname]
          rfl
        · rw [ih2, hname, hoff]
          rfl

/-! Name-resolution stability: replaying the batch resolves every spec
to the same provider/model ids and leaves the name tables untouched. -/

theorem find?_append_some {α : Type} (p : α → Bool) (l d : List α) (x : α)
    (h : l.find? p = some x) : (l ++ d).find? p = some x := by
  rw [List.find?_append, h]
  rfl

theorem pstep_post_find (pv : List ProviderRow × ℕ) (n w : String)
    (k : Option String) :
    ∃ p, (pstep pv n w k).1.find? (fun q => decide (q.name = n)) = some p ∧
      pResolve pv n = p.id := by
  unfold pstep pResolve
  cases h : pv.1.find? (fun q => decide (q.name = n)) with
  | none =>
    refine ⟨newProviderRow pv.2 n w k, ?_, rfl⟩
    rw [List.find?_append, h]
    simp [newProviderRow]
  | some p => exact ⟨p, by simp [h], rfl⟩

theorem mstep_post_find (mv : List ModelRow × ℕ) (n : String) :
    ∃ m, (mstep mv n).1.find? (fun q => decide (q.model_name = n)) = some m ∧
      mResolve mv n = m.id := by
  unfold mstep mResolve
  cases h : mv.1.find? (fun q => decide (q.model_name = n)) with
  | none =>
    refine ⟨newModelRow mv.2 n, ?_, rfl⟩
    rw [List.find?_append, h]
    simp [newModelRow]
  | some m => exact ⟨m, by simp [h], rfl⟩

theorem pstep_of_found (pv : List ProviderRow × ℕ) (n w : String)
    (k : Option String) (p : ProviderRow)
    (h : pv.1.find? (fun q => decide (q.name = n)) = some p) :
    pstep pv n w k = pv ∧ pResolve pv n = p.id := by
  unfold pstep pResolve
  simp [h]

theorem mstep_of_found (mv : List ModelRow × ℕ) (n : String)
    (m : ModelRow)
    (h : mv.1.find? (fun q => decide (q.model_name = n)) = some m) :
    mstep mv n = mv ∧ mResolve mv n = m.id := by
  unfold mstep mResolve
  simp [h]

theorem nfold_extends (specs : List ProviderModelSpec) :
    ∀ nv : (List ProviderRow × ℕ) × (List ModelRow × ℕ),
      ∃ dp dm, (nfold nv specs).1.1 = nv.1.1 ++ dp ∧
        (nfold nv specs).2.1 = nv.2.1 ++ dm := by
  induction specs with
  | nil => intro nv; exact ⟨[], [], by simp [nfold], by simp [nfold]⟩
  | cons s rest ih =>
    intro nv
    obtain ⟨dp2, dm2, h1, h2⟩ := ih (nstep nv s)
    obtain ⟨dp1, hp1⟩ := pstep_extends nv.1 s.provider_name
      s.provider_website s.provider_api_key_name
    obtain ⟨dm1, hm1⟩ := mstep_extends nv.2 s.model_name
    have hcons : nfold nv (s :: rest) = nfold (nstep nv s) rest := rfl
    refine ⟨dp1 ++ dp2, dm1 ++ dm2, ?_, ?_⟩
    · rw [hcons, h1]
      show (nstep nv s).1.1 ++ dp2 = nv.1.1 ++ (dp1 ++ dp2)
      rw [show (nstep nv s).1 = pstep nv.1 s.provider_name
        s.provider_website s.provider_api_key_name from rfl, hp1,
        List.append_assoc]
    · rw [hcons, h2]
      show (nstep nv s).2.1 ++ dm2 = nv.2.1 ++ (dm1 ++ dm2)
      rw [show (nstep nv s).2 = mstep nv.2 s.model_name from rfl, hm1,
        List.append_assoc]

theorem nstep_after_fold (s : ProviderModelSpec)
    (rest : List ProviderModelSpec)
    (nv : (List ProviderRow × ℕ) × (List ModelRow × ℕ)) :
    nstep (nfold (nstep nv s) rest) s = nfold (nstep nv s) rest ∧
    pResolve (nfold (nstep nv s) rest).1 s.provider_name =
      pResolve nv.1 s.provider_name ∧
    mResolve (nfold (nstep nv s) rest).2 s.model_name =
      mResolve nv.2 s.model_name := by
  obtain ⟨p, hp, hpid⟩ := pstep_post_find nv.1 s.provider_name
    s.provider_website s.provider_api_key_name
  obtain ⟨m, hm, hmid⟩ := mstep_post_find nv.2 s.model_name
  obtain ⟨dp, dm, hdp, hdm⟩ := nfold_extends rest (nstep nv s)
  have hpfind : (nfold (nstep nv s) rest).1.1.find?
      (fun q => decide (q.name = s.provider_name)) = some p := by
    rw [hdp]
    exact find?_append_some _ _ _ _ hp
  have hmfind : (nfold (nstep nv s) rest).2.1.find?
      (fun q => decide (q.model_name = s.model_name)) = some m := by
    rw [hdm]
    exact find?_append_some _ _ _ _ hm
  obtain ⟨hps, hpr⟩ := pstep_of_found (nfold (nstep nv s) rest).1
    s.provider_name s.provider_website s.provider_api_key_name p hpfind
  obtain ⟨hms, hmr⟩ := mstep_of_found (nfold (nstep nv s) rest).2
    s.model_name m hmfind
  refine ⟨?_, hpr.trans hpid.symm, hmr.trans hmid.symm⟩
  show (pstep (nfold (nstep nv s) rest).1 s.provider_name
      s.provider_website s.provider_api_key_name,
    mstep (nfold (nstep nv s) rest).2 s.model_name) = _
  rw [hps, hms]

theorem resolveArgs_replay (specs : List ProviderModelSpec) :
    ∀ nv : (List ProviderRow × ℕ) × (List ModelRow × ℕ),
      resolveArgs (nfold nv specs) specs = resolveArgs nv specs := by
  induction specs with
  | nil => intro nv; rfl
  | cons s rest ih =>
    intro nv
    obtain ⟨habs, hpr, hmr⟩ := nstep_after_fold s rest nv
    have hcons : nfold nv (s :: rest) = nfold (nstep nv s) rest := rfl
    rw [hcons]
    show (pResolve (nfold (nstep nv s) rest).1 s.provider_name,
        mResolve (nfold (nstep nv s) rest).2 s.model_name,
        fieldsOfSpec s) ::
        resolveArgs (nstep (nfold (nstep nv s) rest) s) rest =
      (pResolve nv.1 s.provider_name, mResolve nv.2 s.model_name,
        fieldsOfSpec s) :: resolveArgs (nstep nv s) rest
    rw [hpr, hmr, habs, ih (nstep nv s)]

theorem nfold_replay (specs : List ProviderModelSpec) :
    ∀ nv : (List ProviderRow × ℕ) × (List ModelRow × ℕ),
      nfold (nfold nv specs) specs = nfold nv specs := by
  induction specs with
  | nil => intro nv; rfl
  | cons s rest ih =>
    intro nv
    obtain ⟨habs, _, _⟩ := nstep_after_fold s rest nv
    have hcons : nfold nv (s :: rest) = nfold (nstep nv s) rest := rfl
    rw [hcons]
    show nfold (nstep (nfold (nstep nv s) rest) s) rest =
      nfold (nstep nv s) rest
    rw [habs, ih (nstep nv s)]

/-! Offering-table algebra: full-replace writes keyed by (provider id,
model id) absorb their own replay. -/

theorem setFields_setFields (r : OfferingRow) (f g : OfferFields) :
    setFields (setFields r f) g = setFields r g := rfl

theorem setFields_mkOfferingRow (i pid mid : ℕ) (f g : OfferFields) :
    setFields (mkOfferingRow i pid mid f) g = mkOfferingRow i pid mid g := rfl

theorem writeFirst_cons_pos (o : OfferingRow) (rest : List OfferingRow)
    (pid mid : ℕ) (f : OfferFields)
    (h : o.provider_id = pid ∧ o.model_id = mid) :
    writeFirst (o :: rest) pid mid f = setFields o f :: rest := by
  unfold writeFirst
  rw [if_pos h]

theorem writeFirst_cons_neg (o : OfferingRow) (rest : List OfferingRow)
    (pid mid : ℕ) (f : OfferFields)
    (h : ¬ (o.provider_id = pid ∧ o.model_id = mid)) :
    writeFirst (o :: rest) pid mid f = o :: writeFirst rest pid mid f := by
  conv_lhs => unfold writeFirst
  rw [if_neg h]

theorem writeFirst_same_collapse (X : List OfferingRow) (pid mid : ℕ)
    (f g : OfferFields) :
    writeFirst (writeFirst X pid mid f) pid mid g =
      writeFirst X pid mid g := by
  induction X with
  | nil => rfl
  | cons o rest ih =>
    by_cases hc : o.provider_id = pid ∧ o.model_id = mid
    · rw [writeFirst_cons_pos o rest pid mid f hc,
        writeFirst_cons_pos (setFields o f) rest pid mid g hc,
        writeFirst_cons_pos o rest pid mid g hc, setFields_setFields]
    · rw [writeFirst_cons_neg o rest pid mid f hc,
        writeFirst_cons_neg o _ pid mid g hc,
        writeFirst_cons_neg o rest pid mid g hc, ih]

theorem writeFirst_comm (X : List OfferingRow) (p1 m1 p2 m2 : ℕ)
    (f g : OfferFields) (h : ¬ (p1 = p2 ∧ m1 = m2)) :
    writeFirst (writeFirst X p1 m1 f) p2 m2 g =
      writeFirst (writeFirst X p2 m2 g) p1 m1 f := by
  induction X with
  | nil => rfl
  | cons o rest ih =>
    by_cases h1 : o.provider_id = p1 ∧ o.model_id = m1
    · have h2 : ¬ (o.provider_id = p2 ∧ o.model_id = m2) := by
        intro hc
        exact h ⟨h1.1.symm.trans hc.1, h1.2.symm.trans hc.2⟩
      rw [writeFirst_cons_pos o rest p1 m1 f h1,
        writeFirst_cons_neg (setFields o f) rest p2 m2 g h2,
        writeFirst_cons_neg o rest p2 m2 g h2,
        writeFirst_cons_pos o _ p1 m1 f h1]
    · by_cases h2 : o.provider_id = p2 ∧ o.model_id = m2
      · rw [writeFirst_cons_neg o rest p1 m1 f h1,
          writeFirst_cons_pos o _ p2 m2 g h2,
          writeFirst_cons_pos o rest p2 m2 g h2,
          writeFirst_cons_neg (setFields o g) rest p1 m1 f h1]
      · rw [writeFirst_cons_neg o rest p1 m1 f h1,
          writeFirst_cons_neg o _ p2 m2 g h2,
          writeFirst_cons_neg o rest p2 m2 g h2,
          writeFirst_cons_neg o _ p1 m1 f h1, ih]

theorem writeFirst_lookup_other (X : List OfferingRow) (p1 m1 p2 m2 : ℕ)
    (f : OfferFields) (h : ¬ (p1 = p2 ∧ m1 = m2)) :
    lookupPair (writeFirst X p1 m1 f) p2 m2 = lookupPair X p2 m2 := by
  induction X with
  | nil => rfl
  | cons o rest ih =>
    by_cases h1 : o.provider_id = p1 ∧ o.model_id = m1
    · have h2 : ¬ (o.provider_id = p2 ∧ o.model_id = m2) := by
        intro hc
        exact h ⟨h1.1.symm.trans hc.1, h1.2.symm.trans hc.2⟩
      rw [writeFirst_cons_pos o rest p1 m1 f h1]
      unfold lookupPair
      rw [List.find?_cons_of_neg _ (by simpa using h2),
        List.find?_cons_of_neg _ (by simpa using h2)]
    · rw [writeFirst_cons_neg o rest p1 m1 f h1]
      by_cases h2 : o.provider_id = p2 ∧ o.model_id = m2
      · unfold lookupPair
        rw [List.find?_cons_of_pos _ (by simpa using h2),
          List.find?_cons_of_pos _ (by simpa using h2)]
      · unfold lookupPair
        rw [List.find?_cons_of_neg _ (by simpa using h2),
          List.find?_cons_of_neg _ (by simpa using h2)]
        exact ih

theorem writeFirst_nop (X : List OfferingRow) (pid mid : ℕ)
    (f : OfferFields) (r : OfferingRow)
    (h : lookupPair X pid mid = some r) (hfix : setFields r f = r) :
    writeFirst X pid mid f = X := by
  induction X with
  | nil => simp [lookupPair] at h
  | cons o rest ih =>
    by_cases hc : o.provider_id = pid ∧ o.model_id = mid
    · rw [writeFirst_cons_pos o rest pid mid f hc]
      have hro : r = o := by
        unfold lookupPair at h
        rw [List.find?_cons_of_pos _ (by simpa using hc)] at h
        exact (Option.some.inj h).symm
      rw [hro] at hfix
      rw [hfix]
    · rw [writeFirst_cons_neg o rest pid mid f hc]
      congr 1
      apply ih
      unfold lookupPair at h
      rwa [List.find?_cons_of_neg _ (by simpa using hc)] at h

theorem lookupPair_append_some (X d : List OfferingRow) (pid mid : ℕ)
    (r : OfferingRow) (h : lookupPair X pid mid = some r) :
    lookupPair (X ++ d) pid mid = some r :=
  find?_append_some _ _ _ _ h

theorem lookupPair_append_miss (X : List OfferingRow) (c p1 m1 p2 m2 : ℕ)
    (f : OfferFields) (h : ¬ (p1 = p2 ∧ m1 = m2)) :
    lookupPair (X ++ [mkOfferingRow c p1 m1 f]) p2 m2 =
      lookupPair X p2 m2 := by
  unfold lookupPair
  rw [List.find?_append]
  cases hx : X.find?
      (fun o => decide (o.provider_id = p2 ∧ o.model_id = m2)) with
  | some r => rfl
  | none =>
    simp [mkOfferingRow, h]

theorem lookupPair_append_self (X : List OfferingRow) (c pid mid : ℕ)
    (f : OfferFields) (h : lookupPair X pid mid = none) :
    lookupPair (X ++ [mkOfferingRow c pid mid f]) pid mid =
      some (mkOfferingRow c pid mid f) := by
  unfold lookupPair at *
  rw [List.find?_append, h]
  simp [mkOfferingRow]

theorem ostep_lookup_other (oc : List OfferingRow × ℕ)
    (a : ℕ × ℕ × OfferFields) (p m : ℕ) (h : ¬ (a.1 = p ∧ a.2.1 = m)) :
    lookupPair (ostep oc a).1 p m = lookupPair oc.1 p m := by
  unfold ostep
  cases hl : lookupPair oc.1 a.1 a.2.1 with
  | some r =>
    simp only [hl]
    by_cases hcoll : ∃ o ∈ oc.1, o.id ≠ r.id ∧
        o.api_model_name = a.2.2.api_model_name
    · rw [if_pos hcoll]
    · rw [if_neg hcoll]
      simpa using writeFirst_lookup_other oc.1 a.1 a.2.1 p m a.2.2 h
  | none =>
    simp only [hl]
    by_cases hcoll : ∃ o ∈ oc.1, o.api_model_name = a.2.2.api_model_name
    · rw [if_pos hcoll]
    · rw [if_neg hcoll]
      simpa using lookupPair_append_miss oc.1 oc.2 a.1 a.2.1 p m a.2.2 h

theorem ofold_lookup_other (args : List (ℕ × ℕ × OfferFields)) :
    ∀ (oc : List OfferingRow × ℕ) (p m : ℕ),
      (∀ a ∈ args, ¬ (a.1 = p ∧ a.2.1 = m)) →
      lookupPair (ofold oc args).1 p m = lookupPair oc.1 p m := by
  induction args with
  | nil => intro oc p m _; rfl
  | cons a rest ih =>
    intro oc p m h
    have hfold : ofold oc (a :: rest) = ofold (ostep oc a) rest := rfl
    rw [hfold, ih (ostep oc a) p m (fun b hb => h b (by simp [hb])),
      ostep_lookup_other oc a p m (h a (by simp))]

theorem ostep_preserves_present (oc : List OfferingRow × ℕ)
    (a : ℕ × ℕ × OfferFields) (p m : ℕ)
    (h : (lookupPair oc.1 p m).isSome = true) :
    (lookupPair (ostep oc a).1 p m).isSome = true := by
  by_cases hpm : a.1 = p ∧ a.2.1 = m
  · obtain ⟨rfl, rfl⟩ := hpm
    obtain ⟨r, hr⟩ := Option.isSome_iff_exists.mp h
    unfold ostep
    simp only [hr]
    by_cases hcoll : ∃ o ∈ oc.1, o.id ≠ r.id ∧
        o.api_model_name = a.2.2.api_model_name
    · rw [if_pos hcoll]
      simp [hr]
    · rw [if_neg hcoll]
      simpa using
        Option.isSome_iff_exists.mpr
          ⟨setFields r a.2.2, lookupPair_writeFirst oc.1 a.1 a.2.1 a.2.2 r hr⟩
  · rw [ostep_lookup_other oc a p m hpm]
    exact h

theorem ofold_preserves_present (args : List (ℕ × ℕ × OfferFields)) :
    ∀ (oc : List OfferingRow × ℕ) (p m : ℕ),
      (lookupPair oc.1 p m).isSome = true →
      (lookupPair (ofold oc args).1 p m).isSome = true := by
  induction args with
  | nil => intro oc p m h; exact h
  | cons a rest ih =>
    intro oc p m h
    exact ih (ostep oc a) p m (ostep_preserves_present oc a p m h)

theorem ostep_ok_self (oc : List OfferingRow × ℕ) (a : ℕ × ℕ × OfferFields)
    (hok : oStepOk oc a = true) :
    ∃ r0, lookupPair (ostep oc a).1 a.1 a.2.1 = some r0 ∧
      setFields r0 a.2.2 = r0 := by
  unfold ostep oStepOk at *
  cases hl : lookupPair oc.1 a.1 a.2.1 with
  | some r =>
    simp only [hl] at hok ⊢
    have hcoll : ¬ ∃ o ∈ oc.1, o.id ≠ r.id ∧
        o.api_model_name = a.2.2.api_model_name := by
      simpa using hok
    rw [if_neg hcoll]
    exact ⟨setFields r a.2.2,
      by simpa using lookupPair_writeFirst oc.1 a.1 a.2.1 a.2.2 r hl,
      setFields_setFields r a.2.2 a.2.2⟩
  | none =>
    simp only [hl] at hok ⊢
    have hcoll : ¬ ∃ o ∈ oc.1,
        o.api_model_name = a.2.2.api_model_name := by
      simpa using hok
    rw [if_neg hcoll]
    exact ⟨mkOfferingRow oc.2 a.1 a.2.1 a.2.2,
      by simpa using lookupPair_append_self oc.1 oc.2 a.1 a.2.1 a.2.2 hl,
      setFields_mkOfferingRow oc.2 a.1 a.2.1 a.2.2 a.2.2⟩

theorem ofold_all_present (args : List (ℕ × ℕ × OfferFields)) :
    ∀ oc : List OfferingRow × ℕ, oAllOk oc args = true →
      ∀ a ∈ args, (lookupPair (ofold oc args).1 a.1 a.2.1).isSome = true := by
  induction args with
  | nil => intro oc _ a ha; simp at ha
  | cons b rest ih =>
    intro oc h a ha
    rw [oAllOk] at h
    obtain ⟨h1, h2⟩ : oStepOk oc b = true ∧ oAllOk (ostep oc b) rest = true := by
      simpa using h
    have hfold : ofold oc (b :: rest) = ofold (ostep oc b) rest := rfl
    rw [hfold]
    rcases List.mem_cons.mp ha with rfl | ha2
    · exact ofold_preserves_present rest (ostep oc a) a.1 a.2.1
        (ostep_ok_self oc a h1 |>.elim
          (fun r0 hr0 => Option.isSome_iff_exists.mpr ⟨r0, hr0.1⟩))
    · exact ih (ostep oc b) h2 a ha2

theorem ostep_ok_eq_write (oc : List OfferingRow × ℕ)
    (a : ℕ × ℕ × OfferFields) (hok : oStepOk oc a = true)
    (hpres : (lookupPair oc.1 a.1 a.2.1).isSome = true) :
    ostep oc a = (writeFirst oc.1 a.1 a.2.1 a.2.2, oc.2) := by
  obtain ⟨r, hr⟩ := Option.isSome_iff_exists.mp hpres
  unfold ostep oStepOk at *
  simp only [hr] at hok ⊢
  have hcoll : ¬ ∃ o ∈ oc.1, o.id ≠ r.id ∧
      o.api_model_name = a.2.2.api_model_name := by
    simpa using hok
  rw [if_neg hcoll]

theorem ofold_eq_writeAll (args : List (ℕ × ℕ × OfferFields)) :
    ∀ oc : List OfferingRow × ℕ,
      (∀ a ∈ args, (lookupPair oc.1 a.1 a.2.1).isSome = true) →
      oAllOk oc args = true →
      ofold oc args = (writeAll oc.1 args, oc.2) := by
  induction args with
  | nil => intro oc _ _; rfl
  | cons a rest ih =>
    intro oc hpres hok
    rw [oAllOk] at hok
    obtain ⟨h1, h2⟩ : oStepOk oc a = true ∧
        oAllOk (ostep oc a) rest = true := by
      simpa using hok
    have hstep := ostep_ok_eq_write oc a h1 (hpres a (by simp))
    have hfold : ofold oc (a :: rest) = ofold (ostep oc a) rest := rfl
    have hpres2 : ∀ b ∈ rest,
        (lookupPair (writeFirst oc.1 a.1 a.2.1 a.2.2, oc.2).1 b.1
          b.2.1).isSome = true := by
      intro b hb
      rw [← hstep]
      exact ostep_preserves_present oc a b.1 b.2.1 (hpres b (by simp [hb]))
    rw [hfold, hstep, ih (writeFirst oc.1 a.1 a.2.1 a.2.2, oc.2) hpres2
      (by rwa [← hstep])]
    rfl

theorem writeAll_shadow (args : List (ℕ × ℕ × OfferFields)) :
    ∀ (X : List OfferingRow) (pid mid : ℕ) (f : OfferFields),
      (∃ u ∈ args, u.1 = pid ∧ u.2.1 = mid) →
      writeAll (writeFirst X pid mid f) args = writeAll X args := by
  induction args with
  | nil =>
    intro X pid mid f h
    simp at h
  | cons u rest ih =>
    intro X pid mid f h
    by_cases hu : u.1 = pid ∧ u.2.1 = mid
    · obtain ⟨rfl, rfl⟩ := hu
      show writeAll
          (writeFirst (writeFirst X u.1 u.2.1 f) u.1 u.2.1 u.2.2) rest =
        writeAll (writeFirst X u.1 u.2.1 u.2.2) rest
      rw [writeFirst_same_collapse]
    · have h2 : ∃ v ∈ rest, v.1 = pid ∧ v.2.1 = mid := by
        rcases h with ⟨v, hv, hvp⟩
        rcases List.mem_cons.mp hv with rfl | hv2
        · exact absurd hvp hu
        · exact ⟨v, hv2, hvp⟩
      show writeAll
          (writeFirst (writeFirst X pid mid f) u.1 u.2.1 u.2.2) rest =
        writeAll (writeFirst X u.1 u.2.1 u.2.2) rest
      rw [writeFirst_comm X pid mid u.1 u.2.1 f u.2.2
        (fun hc => hu ⟨hc.1.symm, hc.2.symm⟩)]
      exact ih (writeFirst X u.1 u.2.1 u.2.2) pid mid f h2

theorem writeAll_after_ofold (args : List (ℕ × ℕ × OfferFields)) :
    ∀ oc : List OfferingRow × ℕ, oAllOk oc args = true →
      writeAll (ofold oc args).1 args = (ofold oc args).1 := by
  induction args with
  | nil => intro oc _; rfl
  | cons a rest ih =>
    intro oc hok
    rw [oAllOk] at hok
    obtain ⟨h1, h2⟩ : oStepOk oc a = true ∧
        oAllOk (ostep oc a) rest = true := by
      simpa using hok
    have hfold : ofold oc (a :: rest) = ofold (ostep oc a) rest := rfl
    rw [hfold]
    show writeAll
        (writeFirst (ofold (ostep oc a) rest).1 a.1 a.2.1 a.2.2) rest =
      (ofold (ostep oc a) rest).1
    by_cases hsh : ∃ u ∈ rest, u.1 = a.1 ∧ u.2.1 = a.2.1
    · rw [writeAll_shadow rest _ a.1 a.2.1 a.2.2 hsh]
      exact ih (ostep oc a) h2
    · obtain ⟨r0, hr0, hfix⟩ := ostep_ok_self oc a h1
      have hpre : lookupPair (ofold (ostep oc a) rest).1 a.1 a.2.1 =
          lookupPair (ostep oc a).1 a.1 a.2.1 :=
        ofold_lookup_other rest (ostep oc a) a.1 a.2.1
          (fun u hu hc => hsh ⟨u, hu, hc⟩)
      rw [writeFirst_nop _ _ _ _ r0 (hpre.trans hr0) hfix]
      exact ih (ostep oc a) h2

theorem ofold_replay (args : List (ℕ × ℕ × OfferFields))
    (oc : List OfferingRow × ℕ) (h1 : oAllOk oc args = true)
    (h2 : oAllOk (ofold oc args) args = true) :
    ofold (ofold oc args) args = ofold oc args := by
  rw [ofold_eq_writeAll args (ofold oc args)
    (ofold_all_present args oc h1) h2, writeAll_after_ofold args oc h1]

theorem store_ext (st1 st2 : Store) (h1 : nameView st1 = nameView st2)
    (h2 : offView st1 = offView st2) : st1 = st2 := by
  cases st1 with
  | mk p m o np nm no =>
    cases st2 with
    | mk p2 m2 o2 np2 nm2 no2 =>
      simp only [nameView, provView, modView, offView, Prod.mk.injEq] at h1 h2
      obtain ⟨⟨hp, hnp⟩, hm, hnm⟩ := h1
      obtain ⟨ho, hno⟩ := h2
      subst hp
      subst hnp
      subst hm
      subst hnm
      subst ho
      subst hno
      rfl

/-- C5 (amended): when neither the first ingestion of a batch nor its
immediate replay reports an ingestion error (no api-name uniqueness
violation in either pass), ingesting the batch twice in succession
leaves the store exactly as ingesting it once — same provider, model and
offering rows with the same field values, modality lists included.  A
batch on which the replay raises can leave a different store (see the
counterexample), because the replay stops early with some rows reset to
earlier values. -/
theorem ingest_idempotent_of_ok (st : Store)
    (specs : List ProviderModelSpec)
    (h1 : allOk st specs = true)
    (h2 : allOk (runJobSpecs st specs) specs = true) :
    runJobSpecs (runJobSpecs st specs) specs = runJobSpecs st specs := by
  obtain ⟨hn1, ho1⟩ := foldl_views specs st h1
  obtain ⟨hn2, ho2⟩ := foldl_views specs (runJobSpecs st specs) h2
  have hT1 : oAllOk (offView st) (resolveArgs (nameView st) specs) = true := by
    rw [← allOk_eq_oAllOk]
    exact h1
  have hT2 : oAllOk (ofold (offView st) (resolveArgs (nameView st) specs))
      (resolveArgs (nameView st) specs) = true := by
    have := h2
    rw [allOk_eq_oAllOk] at this
    rw [hn1, resolveArgs_replay, ho1] at this
    exact this
  apply store_ext
  · rw [hn2, hn1, nfold_replay]
  · rw [ho2, hn1, resolveArgs_replay, ho1,
      ofold_replay (resolveArgs (nameView st) specs) (offView st) hT1 hT2]

theorem ingest_idempotent_of_ok_witness :
    (allOk Store.empty c5okBatch = true ∧
      allOk (runJobSpecs Store.empty c5okBatch) c5okBatch = true) ∧
    runJobSpecs (runJobSpecs Store.empty c5okBatch) c5okBatch =
      runJobSpecs Store.empty c5okBatch :=
  ⟨⟨by decide, by decide⟩,
   ingest_idempotent_of_ok Store.empty c5okBatch (by decide) (by decide)⟩

/-- C5 counterexample: `c5batch` ingests from the empty store without
any error, yet ingesting it twice differs from ingesting it once — the
replay restores the first offering's context window to 1000 and then
aborts on an api-name collision that did not exist during the first
run, so the final 2000 from the first run is lost. -/
theorem reingest_not_idempotent :
    allOk Store.empty c5batch = true ∧
    runJobSpecs (runJobSpecs Store.empty c5batch) c5batch ≠
      runJobSpecs Store.empty c5batch :=
  ⟨by decide, by decide⟩

end RagPricing
